import Mathlib

/-!
Verification development for the planfirst-cli plan extractor and
implementation verifier (src/core/planner.ts, src/core/verifier.ts).

Strings are modelled as `List Char` (JavaScript strings over the
characters actually used here).  JavaScript number arithmetic on the
match scores is modelled exactly by rational numbers: every operation
performed by the source (adding 50, dividing two small counts,
multiplying by 30 or 20, halving a task count) is exact in IEEE
doubles at the magnitudes involved, so `ℚ` is a faithful model.
Wall-clock values (`Date.now()`, `new Date()`) are passed in as an
explicit `now` parameter or omitted when nothing reads them.

The regular-expression scans of the source are embedded as direct
recursive functions implementing the exact matching semantics of the
JavaScript regexes involved (lazy quantifier stops, greedy character
runs with the only feasible backtracking steps, leftmost-match
scanning with continuation after each match end).
-/

namespace PlanFirst

/-- The JavaScript regex class `\s` (whitespace), restricted to the
code points JavaScript treats as whitespace. -/
def isJsWs (c : Char) : Bool :=
  c = ' ' || c = '\t' || c = '\n' || c = '\x0b' || c = '\x0c' || c = '\r' ||
  c = '\u00A0' || c = '\u1680' || ('\u2000' ≤ c && c ≤ '\u200A') ||
  c = '\u2028' || c = '\u2029' || c = '\u202F' || c = '\u205F' ||
  c = '\u3000' || c = '\uFEFF'

/-- JavaScript line terminators (what `.` refuses to match and what
`$`/`^` anchor around in multiline mode). -/
def isLineTerm (c : Char) : Bool :=
  c = '\n' || c = '\r' || c = '\u2028' || c = '\u2029'

def isAsciiDigit (c : Char) : Bool := '0' ≤ c && c ≤ '9'

def isAsciiLetter (c : Char) : Bool :=
  ('a' ≤ c && c ≤ 'z') || ('A' ≤ c && c ≤ 'Z')

def isLowerAlpha (c : Char) : Bool := 'a' ≤ c && c ≤ 'z'

/-- ASCII `String.prototype.toLowerCase` on one character. -/
def lowerAscii (c : Char) : Char :=
  if 'A' ≤ c && c ≤ 'Z' then Char.ofNat (c.toNat + 32) else c

/-- ASCII `String.prototype.toUpperCase` on one character. -/
def upperAscii (c : Char) : Char :=
  if 'a' ≤ c && c ≤ 'z' then Char.ofNat (c.toNat - 32) else c

/-- `String.prototype.trim`: strip JavaScript whitespace from both ends. -/
def jsTrim (s : List Char) : List Char :=
  ((s.dropWhile isJsWs).reverse.dropWhile isJsWs).reverse

/-- `pat` is a prefix of `s` (character-exact). -/
def leadsWith : List Char → List Char → Bool
  | [], _ => true
  | _ :: _, [] => false
  | a :: as, b :: bs => a = b && leadsWith as bs

/-- `String.prototype.includes`: `pat` occurs as a contiguous substring
of `s`.  (`includes` of the empty string is `true`, as in JavaScript.) -/
def containsSub : List Char → List Char → Bool
  | s, pat =>
    if leadsWith pat s then true
    else match s with
      | [] => false
      | _ :: t => containsSub t pat

/-- Case-insensitive literal match: if `s` starts with `lit` up to ASCII
case, return the rest of `s`. -/
def matchCI : List Char → List Char → Option (List Char)
  | [], s => some s
  | _ :: _, [] => none
  | l :: ls, c :: cs => if lowerAscii c = lowerAscii l then matchCI ls cs else none

/-- `String.prototype.split(/\s+/)`: the pieces between maximal
whitespace runs, keeping the empty leading/trailing pieces JavaScript
produces.  `mode` records whether we are inside a separator run. -/
def jsSplitWsGo : Bool → List Char → List Char → List (List Char)
  | _, acc, [] => [acc.reverse]
  | mode, acc, c :: t =>
    if isJsWs c then
      if mode then jsSplitWsGo true acc t
      else acc.reverse :: jsSplitWsGo true [] t
    else jsSplitWsGo false (c :: acc) t

def jsSplitWs (s : List Char) : List (List Char) := jsSplitWsGo false [] s

/-- `content.split(/[.!?]\s+/)` from `Planner.extractReasoning`: split on
a sentence punctuation character followed by at least one whitespace
character (the whitespace run is consumed greedily). -/
def splitSentGo : Bool → List Char → List Char → List (List Char)
  | _, acc, [] => [acc.reverse]
  | mode, acc, c :: t =>
    if mode && isJsWs c then splitSentGo true acc t
    else if (c = '.' || c = '!' || c = '?') &&
            (match t with | c2 :: _ => isJsWs c2 | [] => false) then
      acc.reverse :: splitSentGo true [] t
    else splitSentGo false (c :: acc) t

def splitSentences (s : List Char) : List (List Char) := splitSentGo false [] s

/-! ## Phase segmentation

Embedding of the `Planner.extractPhases` regex
`/##\s+(?:Phase\s+\d+[:\s]+)?(.+?)(?=##\s+|$)/gs` applied with
`String.prototype.matchAll`.  With the `s` flag, `.` matches every
character, so the lazy group `(.+?)` expands from the heading text
through the section body until the first position where the lookahead
`##\s+` succeeds, or to the end of input (`$`). -/

/-- The lookahead `(?=##\s+)`: the suffix starts a new `##` heading. -/
def headingAt : List Char → Bool
  | '#' :: '#' :: c :: _ => isJsWs c
  | _ => false

/-- Does any position of `s` satisfy the `##\s+` lookahead? -/
def hasHeadingPos : List Char → Bool
  | [] => false
  | c :: t => headingAt (c :: t) || hasHeadingPos t

/-- The lazy group `(.+?)(?=##\s+|$)`: consume at least one character,
stopping at the first position where a new heading starts or the input
ends.  Returns `(consumed, rest)`. -/
def lazyContent : List Char → List Char × List Char
  | [] => ([], [])
  | c :: t =>
    if headingAt t || t.isEmpty then ([c], t)
    else ((c :: (lazyContent t).1), (lazyContent t).2)

def isColonWs (c : Char) : Bool := c = ':' || isJsWs c

/-- The optional group `(?:Phase\s+\d+[:\s]+)?` tried at the start of
`s`.  On success returns `(consumed, rest)` with `rest` nonempty: when
the greedy `[:\s]+` run reaches the end of input, the engine backtracks
one character so that `(.+?)` still has something to match; if even
that is impossible the whole optional group fails. -/
def matchPhaseLabel : List Char → Option (List Char × List Char)
  | 'P' :: 'h' :: 'a' :: 's' :: 'e' :: r =>
    let w := r.takeWhile isJsWs
    let r1 := r.dropWhile isJsWs
    if w.isEmpty then none
    else
      let d := r1.takeWhile isAsciiDigit
      let r2 := r1.dropWhile isAsciiDigit
      if d.isEmpty then none
      else
        let cs := r2.takeWhile isColonWs
        let r3 := r2.dropWhile isColonWs
        if cs.isEmpty then none
        else if r3.isEmpty then
          if 2 ≤ cs.length then
            some (['P', 'h', 'a', 's', 'e'] ++ w ++ d ++ cs.dropLast,
                  [cs.getLastD ' '])
          else none
        else some (['P', 'h', 'a', 's', 'e'] ++ w ++ d ++ cs, r3)
  | _ => none

/-- One attempt of the phase regex anchored at the start of `s`.
Returns `some (matchedText, group1, rest)` on success.  The greedy
`\s+` after `##` backtracks one character only when it would otherwise
consume the whole remaining input (leaving nothing for `(.+?)`). -/
def tryMatchHere : List Char → Option (List Char × List Char × List Char)
  | '#' :: '#' :: r =>
    let w := r.takeWhile isJsWs
    let r1 := r.dropWhile isJsWs
    if w.isEmpty then none
    else if r1.isEmpty then
      if 2 ≤ w.length then some ('#' :: '#' :: w, [w.getLastD ' '], [])
      else none
    else
      match matchPhaseLabel r1 with
      | some (pc, pr) =>
        some ('#' :: '#' :: (w ++ pc ++ (lazyContent pr).1),
              (lazyContent pr).1, (lazyContent pr).2)
      | none =>
        some ('#' :: '#' :: (w ++ (lazyContent r1).1),
              (lazyContent r1).1, (lazyContent r1).2)
  | _ => none

/-- `matchAll` scanning loop, fuelled for structural recursion: try the
pattern at each position left to right; after a match continue at the
match end.  Fuel `s.length` always suffices because every step strictly
shortens the input. -/
def scanAux : Nat → List Char → List (List Char × List Char)
  | _, [] => []
  | 0, _ => []
  | fuel + 1, c :: t =>
    match tryMatchHere (c :: t) with
    | some (m, g, rest) => (m, g) :: scanAux fuel rest
    | none => scanAux fuel t

/-- All matches of the phase regex over `s`: `(match0, group1)` pairs. -/
def scanPhases (s : List Char) : List (List Char × List Char) :=
  scanAux s.length s

/-! ## Data model (src/types/index.ts, the fields the core uses) -/

inductive TaskType
  | create | modify | delete | rename | move
deriving DecidableEq, Repr

inductive ChangeAction
  | add | modify | delete | replace | refactor | comment
deriving DecidableEq, Repr

structure Change where
  location : List Char
  action : ChangeAction
  description : List Char
  code : Option (List Char)
  rationale : List Char
deriving DecidableEq, Repr

structure Task where
  id : List Char
  type : TaskType
  file : List Char
  description : List Char
  reasoning : List Char
  changes : List Change
deriving DecidableEq, Repr

inductive PhaseStatus
  | pending | inProgress | completed | failed
deriving DecidableEq, Repr

structure Phase where
  id : List Char
  order : Nat
  name : List Char
  description : List Char
  tasks : List Task
  dependencies : List (List Char)
  status : PhaseStatus
deriving DecidableEq, Repr

inductive Complexity
  | low | medium | high
deriving DecidableEq, Repr

inductive PlanStatus
  | draft | ready | inProgress | completed | verified
deriving DecidableEq, Repr

structure PlanMetadata where
  estimatedComplexity : Complexity
  filesAffected : List (List Char)
  dependencies : List (List Char)
  estimatedTime : Option (List Char)
deriving DecidableEq, Repr

/-- `Plan` without the `timestamp : Date` field: the creation instant is
wall-clock state nothing in the core reads back.  The `Date.now()` used
to mint the id is passed in as `now`. -/
structure Plan where
  id : List Char
  title : List Char
  description : List Char
  phases : List Phase
  metadata : PlanMetadata
  status : PlanStatus
deriving DecidableEq, Repr

/-- The slice of `AnalysisResult` the planner reads
(`analysis.project.dependencies`). -/
structure ProjectInfo where
  dependencies : List (List Char)
deriving DecidableEq, Repr

structure AnalysisResult where
  project : ProjectInfo
deriving DecidableEq, Repr

/-! ## Task extraction (Planner.extractTasks)

Three regexes are scanned over the section text in priority order:

* P1: ``/(?:Create|Add|Modify|Update|Edit)\s+`([^`]+\.[a-z]+)`/gi``
* P2: ``/(?:File|Path):\s*`([^`]+\.[a-z]+)`/gi``
* P3: ``/`([a-zA-Z0-9_\-\/]+\.[a-z]{2,4})`/g``

A backtick-delimited token matches the P1/P2 group `[^`]+\.[a-z]+`
exactly when it splits as `stem.ext` at its last dot with a nonempty
stem and a nonempty all-letter extension (the `i` flag makes the
letters case-insensitive).  A token matches the P3 group exactly when
it has a single dot, a nonempty stem over `[a-zA-Z0-9_\-\/]` and a
lowercase extension of length 2 to 4. -/

/-- Token shape for the P1/P2 capture group. -/
def p1TokenOk (tok : List Char) : Bool :=
  let rv := tok.reverse.takeWhile (fun c => c ≠ '.')
  decide (rv.length + 1 < tok.length) && !rv.isEmpty && rv.all isAsciiLetter

def isP3Stem (c : Char) : Bool :=
  ('a' ≤ c && c ≤ 'z') || ('A' ≤ c && c ≤ 'Z') ||
  ('0' ≤ c && c ≤ '9') || c = '_' || c = '-' || c = '/'

/-- Token shape for the P3 capture group. -/
def p3TokenOk (tok : List Char) : Bool :=
  let u := tok.takeWhile (fun c => c ≠ '.')
  match tok.dropWhile (fun c => c ≠ '.') with
  | '.' :: v =>
    !u.isEmpty && u.all isP3Stem &&
    decide (2 ≤ v.length) && decide (v.length ≤ 4) && v.all isLowerAlpha
  | _ => false

/-- The action verbs of P1, in alternation order. -/
def p1Verbs : List (List Char) :=
  [['C', 'r', 'e', 'a', 't', 'e'], ['A', 'd', 'd'],
   ['M', 'o', 'd', 'i', 'f', 'y'], ['U', 'p', 'd', 'a', 't', 'e'],
   ['E', 'd', 'i', 't']]

def firstVerbMatch (s : List Char) : Option (List Char) :=
  (p1Verbs.map (fun v => matchCI v s)).foldr
    (fun o acc => match o with | some r => some r | none => acc) none

/-- Try P1 anchored at the start of `s`; on success `(capture, rest)`. -/
def tryP1At (s : List Char) : Option (List Char × List Char) :=
  match firstVerbMatch s with
  | none => none
  | some r =>
    if (r.takeWhile isJsWs).isEmpty then none
    else
      match r.dropWhile isJsWs with
      | '`' :: r2 =>
        let tok := r2.takeWhile (fun c => c ≠ '`')
        match r2.dropWhile (fun c => c ≠ '`') with
        | '`' :: r4 => if p1TokenOk tok then some (tok, r4) else none
        | _ => none
      | _ => none

/-- Try P2 anchored at the start of `s`. -/
def tryP2At (s : List Char) : Option (List Char × List Char) :=
  let afterLabel :=
    match matchCI ['F', 'i', 'l', 'e'] s with
    | some r => some r
    | none => matchCI ['P', 'a', 't', 'h'] s
  match afterLabel with
  | none => none
  | some r =>
    match r with
    | ':' :: r1 =>
      match r1.dropWhile isJsWs with
      | '`' :: r2 =>
        let tok := r2.takeWhile (fun c => c ≠ '`')
        match r2.dropWhile (fun c => c ≠ '`') with
        | '`' :: r4 => if p1TokenOk tok then some (tok, r4) else none
        | _ => none
      | _ => none
    | _ => none

/-- Try P3 anchored at the start of `s`. -/
def tryP3At (s : List Char) : Option (List Char × List Char) :=
  match s with
  | '`' :: r =>
    let tok := r.takeWhile (fun c => c ≠ '`')
    match r.dropWhile (fun c => c ≠ '`') with
    | '`' :: r2 => if p3TokenOk tok then some (tok, r2) else none
    | _ => none
  | _ => none

/-- Fuelled leftmost-match scanning loop shared by the task and file
patterns: collect every capture, resuming after each match end. -/
def scanWithFuel (tryAt : List Char → Option (List Char × List Char)) :
    Nat → List Char → List (List Char)
  | _, [] => []
  | 0, _ => []
  | fuel + 1, c :: t =>
    match tryAt (c :: t) with
    | some (tok, rest) => tok :: scanWithFuel tryAt fuel rest
    | none => scanWithFuel tryAt fuel t

def scanP1 (s : List Char) : List (List Char) := scanWithFuel tryP1At s.length s
def scanP2 (s : List Char) : List (List Char) := scanWithFuel tryP2At s.length s
def scanP3 (s : List Char) : List (List Char) := scanWithFuel tryP3At s.length s

/-- `Set<string>` insertion: append if not already present (JavaScript
sets iterate in insertion order). -/
def addUnique (acc : List (List Char)) (x : List Char) : List (List Char) :=
  if x ∈ acc then acc else acc ++ [x]

/-- The deduplicated `filesFound` set built by running the three
patterns in priority order over the section text. -/
def filesFoundOf (content : List Char) : List (List Char) :=
  (scanP1 content ++ scanP2 content ++ scanP3 content).foldl addUnique []

/-- `Planner.determineTaskType`: case-insensitive substring probes. -/
def determineTaskType (content file : List Char) : TaskType :=
  let lc := content.map lowerAscii
  let lf := file.map lowerAscii
  if containsSub lc ("create ".data ++ lf) ||
     containsSub lc ("new ".data ++ lf) ||
     containsSub lc ("add ".data ++ lf) then .create
  else if containsSub lc ("delete ".data ++ lf) ||
          containsSub lc ("remove ".data ++ lf) then .delete
  else .modify

/-- `Planner.extractReasoning`: first sentence mentioning the file,
trimmed and truncated to 200 characters, else a generic fallback. -/
def extractReasoning (content file : List Char) : List Char :=
  match (splitSentences content).find? (fun s => containsSub s file) with
  | some s => (jsTrim s).take 200
  | none => "Implement as described in the plan".data

def typeName : TaskType → List Char
  | .create => "create".data
  | .modify => "modify".data
  | .delete => "delete".data
  | .rename => "rename".data
  | .move => "move".data

/-- `taskType.charAt(0).toUpperCase() + taskType.slice(1)`. -/
def capitalizeWord : List Char → List Char
  | [] => []
  | c :: t => upperAscii c :: t

/-- One task record built inside `filesFound.forEach((file, idx) => ...)`.
`Set.prototype.forEach` passes the element itself as the second
callback argument, so `idx` is the file string and the template
`task-(idx + 1)` concatenates the file name with the characters `1`. -/
def mkTask (content file : List Char) : Task :=
  let tt := determineTaskType content file
  { id := "task-".data ++ file ++ "1".data
    type := tt
    file := file
    description := capitalizeWord (typeName tt) ++ " ".data ++ file
    reasoning := extractReasoning content file
    changes := [] }

/-- The generic fallback task emitted when no file paths are found. -/
def placeholderTask : Task :=
  { id := "task-1".data
    type := .modify
    file := "implementation".data
    description := "Implement the planned changes".data
    reasoning := "As described in the plan".data
    changes := [] }

/-- `Planner.extractTasks`. -/
def extractTasks (content : List Char) : List Task :=
  let tasks := (filesFoundOf content).map (mkTask content)
  if tasks.isEmpty then [placeholderTask] else tasks

/-! ## Phase assembly (Planner.extractPhases) -/

/-- The single synthetic phase used when no `##` section is matched. -/
def fallbackPhase (markdown : List Char) : Phase :=
  { id := "phase-1".data
    order := 1
    name := "Implementation".data
    description := "Complete implementation".data
    tasks := extractTasks markdown
    dependencies := []
    status := .pending }

/-- The `matches.forEach((match, idx) => ...)` loop building one phase
per regex match (`Array.prototype.forEach`, so `idx` is numeric). -/
def buildPhases : Nat → List (List Char × List Char) → List Phase
  | _, [] => []
  | idx, (m, g) :: rest =>
    { id := "phase-".data ++ (Nat.repr (idx + 1)).data
      order := idx + 1
      name := jsTrim g
      description := m.take 200
      tasks := extractTasks m
      dependencies :=
        if 0 < idx then ["phase-".data ++ (Nat.repr idx).data] else []
      status := .pending } :: buildPhases (idx + 1) rest

/-- `Planner.extractPhases`. -/
def extractPhases (markdown : List Char) : List Phase :=
  let ms := scanPhases markdown
  if ms.isEmpty then [fallbackPhase markdown]
  else
    let phases := buildPhases 0 ms
    if phases.isEmpty then [fallbackPhase markdown] else phases

/-! ## Plan metadata (Planner.extractFilesMentioned, estimateComplexity,
estimateTime) and title extraction -/

/-- Token shape for the whole-document file pattern
`` /`([a-zA-Z0-9_\-\/\.]+\.[a-z]{2,4})`/g `` (the stem class here also
also contains the dot, unlike P3). -/
def p4TokenOk (tok : List Char) : Bool :=
  let rv := tok.reverse.takeWhile (fun c => c ≠ '.')
  decide (rv.length + 1 < tok.length) &&
  decide (2 ≤ rv.length) && decide (rv.length ≤ 4) && rv.all isLowerAlpha &&
  (tok.take (tok.length - rv.length - 1)).all (fun c => isP3Stem c || c = '.')

def tryP4At (s : List Char) : Option (List Char × List Char) :=
  match s with
  | '`' :: r =>
    let tok := r.takeWhile (fun c => c ≠ '`')
    match r.dropWhile (fun c => c ≠ '`') with
    | '`' :: r2 => if p4TokenOk tok then some (tok, r2) else none
    | _ => none
  | _ => none

def scanP4 (s : List Char) : List (List Char) := scanWithFuel tryP4At s.length s

/-- `Planner.extractFilesMentioned`: rescan the whole document with the
broader pattern, keeping tokens that are truthy and space-free, into an
insertion-ordered set. -/
def extractFilesMentioned (markdown : List Char) : List (List Char) :=
  (scanP4 markdown).foldl
    (fun acc tok =>
      if !tok.isEmpty && !containsSub tok [' '] then addUnique acc tok else acc)
    []

/-- `Planner.estimateComplexity`. -/
def estimateComplexity (markdown : List Char) (phaseCount fileCount : Nat) :
    Complexity :=
  let wordCount := (jsSplitWs markdown).length
  if 10 < fileCount ∨ 5 < phaseCount ∨ 2000 < wordCount then .high
  else if 5 < fileCount ∨ 2 < phaseCount ∨ 1000 < wordCount then .medium
  else .low

/-- `Planner.estimateTime` (`Math.ceil` on a nonnegative integer ratio). -/
def estimateTime (complexity : Complexity) (phases : Nat) : List Char :=
  let baseHours : Nat :=
    match complexity with | .low => 2 | .medium => 6 | .high => 16
  let hours := baseHours * phases
  if hours < 8 then (Nat.repr hours).data ++ " hours".data
  else if hours < 40 then (Nat.repr ((hours + 7) / 8)).data ++ " days".data
  else (Nat.repr ((hours + 39) / 40)).data ++ " weeks".data

/-- One attempt of the title regex `/^#\s+(.+)$/m` anchored at a line
start.  `\s+` may consume line breaks; `.` refuses line terminators, so
when the greedy whitespace run reaches the end of input the engine
backtracks until the leftover for `(.+)` starts with a printable
whitespace character. -/
def tryTitleAt : List Char → Option (List Char)
  | '#' :: r =>
    let w := r.takeWhile isJsWs
    let r1 := r.dropWhile isJsWs
    if w.isEmpty then none
    else if r1.isEmpty then
      match w.reverse.dropWhile isLineTerm with
      | [] => none
      | c :: rest2 => if rest2.isEmpty then none else some [c]
    else some (r1.takeWhile (fun c => !isLineTerm c))
  | _ => none

/-- Scan for the first multiline `^#\s+(.+)$` match; `atStart` tracks
whether the current position is a line start. -/
def findTitleGo : Bool → List Char → Option (List Char)
  | atStart, s =>
    match (if atStart then tryTitleAt s else none) with
    | some t => some t
    | none =>
      match s with
      | [] => none
      | c :: t => findTitleGo (isLineTerm c) t

def findTitle (s : List Char) : Option (List Char) := findTitleGo true s

/-- `Planner.parsePlanFromMarkdown`.  `now` stands for `Date.now()`. -/
def parsePlanFromMarkdown (markdown description : List Char)
    (analysis : AnalysisResult) (now : Nat) : Plan :=
  let title :=
    match findTitle markdown with
    | some t => t
    | none => description.take 100
  let phases := extractPhases markdown
  let filesAffected := extractFilesMentioned markdown
  let complexity := estimateComplexity markdown phases.length filesAffected.length
  { id := "plan-".data ++ (Nat.repr now).data
    title := title
    description := description
    phases := phases
    metadata :=
      { estimatedComplexity := complexity
        filesAffected := filesAffected
        dependencies := analysis.project.dependencies.take 10
        estimatedTime := some (estimateTime complexity phases.length) }
    status := .ready }

/-! ## Exact rational arithmetic

JavaScript number arithmetic in the verifier is modelled over `ℚ`.
The helpers below are definitionally computable (built on `mkRat` and
`Rat.divInt`); the lemmas identify them with the standard field
operations for order reasoning.  Every division performed by the
source divides by a positive count, where `Rat.divInt` agrees with
JavaScript division exactly. -/

def qOfNat (n : Nat) : ℚ := mkRat (Int.ofNat n) 1

def qAdd (a b : ℚ) : ℚ :=
  mkRat (a.num * (b.den : Int) + b.num * (a.den : Int)) (a.den * b.den)

def qMul (a b : ℚ) : ℚ := mkRat (a.num * b.num) (a.den * b.den)

def qDiv (a b : ℚ) : ℚ := Rat.divInt (a.num * (b.den : Int)) ((a.den : Int) * b.num)

/-- `Math.round`: round half toward positive infinity,
`floor(q + 1/2)` computed on the numerator and denominator. -/
def jsRound (q : ℚ) : Int := Int.fdiv (2 * q.num + (q.den : Int)) (2 * (q.den : Int))

/-- JavaScript rendering of an integer (used in template literals). -/
def intRepr (i : Int) : List Char :=
  match i with
  | .ofNat n => (Nat.repr n).data
  | .negSucc n => '-' :: (Nat.repr (n + 1)).data

/-! ## Verifier data model (src/types/index.ts) -/

/-- `VerificationStatus`; the source value `partial` is called
`partialMatch` here (`partial` is a Lean keyword). -/
inductive VerificationStatus
  | pass | partialMatch | fail | error
deriving DecidableEq, Repr

inductive IssueSeverity
  | critical | error | warning | info
deriving DecidableEq, Repr

/-- `IssueType`; `synError`/`logicError` stand for the source values
`syntax-error`/`logic-error`. -/
inductive IssueType
  | missingImplementation | incorrectImplementation | regression
  | extraChanges | dependencyIssue | synError | logicError
deriving DecidableEq, Repr

structure Issue where
  severity : IssueSeverity
  type : IssueType
  message : List Char
  file : List Char
  line : Option Nat
  suggestion : Option (List Char)
deriving DecidableEq, Repr

structure TaskVerification where
  taskId : List Char
  file : List Char
  status : VerificationStatus
  issues : List Issue
  matchPercentage : ℚ
deriving DecidableEq, Repr

structure VerificationSummary where
  totalTasks : Nat
  tasksCompleted : Nat
  tasksPartial : Nat
  tasksMissing : Nat
  criticalIssues : Nat
  warnings : Nat
deriving DecidableEq, Repr

/-- `VerificationResult` without the `timestamp : Date` field (wall
clock state nothing reads back). -/
structure VerificationResult where
  planId : List Char
  phaseId : Option (List Char)
  overallStatus : VerificationStatus
  taskResults : List TaskVerification
  summary : VerificationSummary
  recommendations : List (List Char)
deriving DecidableEq, Repr

/-! ## File system model

A file keyed by its joined path is absent, present with content, or
present but unreadable.  `exists` (an `fs.access` probe) reports an
unreadable file as present; `readFile` on it throws `FileSystemError`
(src/utils/fileSystem.ts line 31), modelled as `Except.error ()`. -/

inductive FileState
  | absent
  | present (content : List Char)
  | unreadable
deriving DecidableEq, Repr

def FS := List Char → FileState

/-- `path.join(rootPath, task.file)` for a plain relative path. -/
def pathJoin (root file : List Char) : List Char := root ++ '/' :: file

/-- `exists` from src/utils/fileSystem.ts (`fs.access` succeeds). -/
def existsFs (fs : FS) (p : List Char) : Bool :=
  match fs p with
  | .absent => false
  | _ => true

/-- `readFile` from src/utils/fileSystem.ts: throws on failure. -/
def readFileFs (fs : FS) (p : List Char) : Except Unit (List Char) :=
  match fs p with
  | .present c => .ok c
  | _ => .error ()

/-! ## Match-percentage scoring (Verifier.extractKeywords,
Verifier.calculateMatchPercentage) -/

/-- The stop-word set of `Verifier.extractKeywords`. -/
def commonWords : List (List Char) :=
  (["the", "a", "an", "and", "or", "but", "in", "on", "at", "to", "for",
    "of", "with", "by", "from", "as", "is", "was", "are", "be", "been",
    "has", "have", "had", "do", "does", "did", "will", "would", "should",
    "could", "this", "that", "these", "those", "file", "function",
    "class"]).map (fun s => s.data)

/-- `Verifier.extractKeywords`: lowercase, map every character outside
`[a-z0-9\s]` to a space, split on whitespace runs, keep words longer
than three characters that are not stop words, first ten. -/
def extractKeywords (text : List Char) : List (List Char) :=
  let replaced := (text.map lowerAscii).map (fun c =>
    if ('a' ≤ c && c ≤ 'z') || ('0' ≤ c && c ≤ '9') || isJsWs c then c else ' ')
  ((jsSplitWs replaced).filter
    (fun w => decide (3 < w.length) && !(commonWords.contains w))).take 10

/-- `Verifier.calculateMatchPercentage`.  The keyword probe lowercases
both sides; the change-snippet probe searches the raw content.  A
change counts only when its `code` is truthy (present and nonempty). -/
def calculateMatchPercentage (content : List Char) (task : Task) : ℚ :=
  let keywords := extractKeywords task.description
  let keywordsFound := keywords.filter (fun kw =>
    containsSub (content.map lowerAscii) (kw.map lowerAscii))
  let score := qAdd 50
    (qMul (qDiv (qOfNat keywordsFound.length) (qOfNat (max keywords.length 1))) 30)
  let score :=
    if task.changes.isEmpty then score
    else
      let changesFound := (task.changes.filter (fun ch =>
        match ch.code with
        | some code =>
          !code.isEmpty && (extractKeywords code).any (fun kw => containsSub content kw)
        | none => false)).length
      qAdd score (qMul (qDiv (qOfNat changesFound) (qOfNat task.changes.length)) 20)
  min 100 (max 0 score)

/-- `Verifier.detectUnplannedChanges`: a deliberate no-op placeholder. -/
def detectUnplannedChanges (filePath : List Char) (task : Task) :
    List (List Char) := []

/-! ## Per-task verification (Verifier.verifyTask) -/

/-- `Verifier.verifyTask`.  A `readFile` throw propagates (there is no
try/catch around it), so the result is `Except`.  The `rename`/`move`
task types hit none of the three branches and fall through with the
initial `fail`/empty/0 values. -/
def verifyTask (task : Task) (rootPath : List Char) (fs : FS)
    (strictMode : Bool) : Except Unit TaskVerification :=
  let filePath := pathJoin rootPath task.file
  let fileExists := existsFs fs filePath
  let finish := fun (status : VerificationStatus) (issues : List Issue) (m : ℚ) =>
    let issues := issues ++
      (if strictMode && fileExists then
        (detectUnplannedChanges filePath task).map (fun msg =>
          { severity := .warning, type := .extraChanges, message := msg,
            file := task.file, line := none, suggestion := none })
      else [])
    Except.ok { taskId := task.id, file := task.file, status := status,
                issues := issues, matchPercentage := m }
  match task.type with
  | .create =>
    if !fileExists then
      finish .fail
        [{ severity := .error, type := .missingImplementation,
           message := "File not created: ".data ++ task.file,
           file := task.file, line := none,
           suggestion := some "Create the file as specified in the plan".data }]
        0
    else
      match readFileFs fs filePath with
      | .error e => .error e
      | .ok content =>
        let m := calculateMatchPercentage content task
        if 80 ≤ m then finish .pass [] m
        else if 50 ≤ m then
          finish .partialMatch
            [{ severity := .warning, type := .incorrectImplementation,
               message := "File created but implementation may be incomplete (".data
                 ++ intRepr (jsRound m) ++ "% match)".data,
               file := task.file, line := none,
               suggestion := some "Review the plan and ensure all requirements are met".data }]
            m
        else
          finish .fail
            [{ severity := .error, type := .incorrectImplementation,
               message := "File created but implementation is significantly different from plan".data,
               file := task.file, line := none,
               suggestion := some "Review and align implementation with the plan".data }]
            m
  | .modify =>
    if !fileExists then
      finish .fail
        [{ severity := .error, type := .missingImplementation,
           message := "File does not exist: ".data ++ task.file,
           file := task.file, line := none,
           suggestion := some (if task.file = "unknown".data then
             "This task may need clarification about which file to modify".data
           else
             "Check if the file path is correct or if the file needs to be created".data) }]
        0
    else
      match readFileFs fs filePath with
      | .error e => .error e
      | .ok content =>
        let m := calculateMatchPercentage content task
        if 70 ≤ m then finish .pass [] m
        else if 40 ≤ m then
          finish .partialMatch
            [{ severity := .warning, type := .incorrectImplementation,
               message := "Modifications may be incomplete (".data
                 ++ intRepr (jsRound m) ++ "% confidence)".data,
               file := task.file, line := none,
               suggestion := some "Verify that all planned changes have been made".data }]
            m
        else
          finish .fail
            [{ severity := .error, type := .missingImplementation,
               message := "Required modifications not detected".data,
               file := task.file, line := none,
               suggestion := some "Review the plan and implement the required changes".data }]
            m
  | .delete =>
    if fileExists then
      finish .fail
        [{ severity := .error, type := .extraChanges,
           message := "File should have been deleted: ".data ++ task.file,
           file := task.file, line := none,
           suggestion := some "Remove this file as specified in the plan".data }]
        0
    else finish .pass [] 100
  | .rename => finish .fail [] 0
  | .move => finish .fail [] 0

/-! ## Whole-plan verification (Verifier.verify) -/

/-- `VerifyOptions`; `strictMode` is already defaulted
(`options.strictMode || false`). -/
structure VerifyOptions where
  phase : Option Nat
  task : Option (List Char)
  strictMode : Bool
deriving DecidableEq, Repr

/-- Truthiness of `options.phase` (`0` and `undefined` are falsy). -/
def phaseTruthy : Option Nat → Bool
  | some p => decide (p ≠ 0)
  | none => false

/-- Truthiness of `options.task` (the empty string is falsy). -/
def taskTruthy : Option (List Char) → Bool
  | some t => !t.isEmpty
  | none => false

/-- `Verifier.getTasksToVerify`. -/
def getTasksToVerify (plan : Plan) (opts : VerifyOptions) : List Task :=
  let tasks :=
    if phaseTruthy opts.phase then
      match plan.phases.find? (fun p => decide (p.order = opts.phase.getD 0)) with
      | some ph => ph.tasks
      | none => []
    else (plan.phases.map (fun ph => ph.tasks)).flatten
  if taskTruthy opts.task then
    tasks.filter (fun t => t.id == opts.task.getD [])
  else tasks

/-- The sequential `for (const task of tasksToVerify)` loop: the first
`readFile` throw aborts the whole run. -/
def verifyTasks (rootPath : List Char) (fs : FS) (strictMode : Bool) :
    List Task → Except Unit (List TaskVerification)
  | [] => .ok []
  | t :: ts =>
    match verifyTask t rootPath fs strictMode with
    | .error e => .error e
    | .ok r =>
      match verifyTasks rootPath fs strictMode ts with
      | .error e => .error e
      | .ok rs => .ok (r :: rs)

/-- `Verifier.generateRecommendations`. -/
def generateRecommendations (taskResults : List TaskVerification)
    (summary : VerificationSummary) : List (List Char) :=
  let recs : List (List Char) := []
  let recs := recs ++
    (if 0 < summary.tasksMissing then
      ["Complete the ".data ++ (Nat.repr summary.tasksMissing).data
        ++ " missing task".data
        ++ (if 1 < summary.tasksMissing then "s".data else [])]
    else [])
  let recs := recs ++
    (if 0 < summary.tasksPartial then
      ["Review and improve the ".data ++ (Nat.repr summary.tasksPartial).data
        ++ " partially implemented task".data
        ++ (if 1 < summary.tasksPartial then "s".data else [])]
    else [])
  let recs := recs ++
    (if 0 < summary.criticalIssues then
      ["Address critical issues before proceeding".data]
    else [])
  let failedTasks := taskResults.filter
    (fun t => t.status == VerificationStatus.fail)
  let recs := recs ++
    (if 0 < failedTasks.length ∧ failedTasks.length ≤ 3 then
      failedTasks.map (fun t => "Review implementation of ".data ++ t.file)
    else [])
  if recs.isEmpty then
    ["Implementation looks good! Consider code review before merging".data]
  else recs

/-- `Verifier.verify`: select tasks, verify them in order, aggregate
the summary, derive the overall status, generate recommendations. -/
def verify (plan : Plan) (rootPath : List Char) (fs : FS)
    (opts : VerifyOptions) : Except Unit VerificationResult :=
  match verifyTasks rootPath fs opts.strictMode (getTasksToVerify plan opts) with
  | .error e => .error e
  | .ok taskResults =>
    let allIssues := (taskResults.map (fun t => t.issues)).flatten
    let summary : VerificationSummary :=
      { totalTasks := taskResults.length
        tasksCompleted := (taskResults.filter
          (fun t => t.status == VerificationStatus.pass)).length
        tasksPartial := (taskResults.filter
          (fun t => t.status == VerificationStatus.partialMatch)).length
        tasksMissing := (taskResults.filter
          (fun t => t.status == VerificationStatus.fail)).length
        criticalIssues := (allIssues.filter (fun i =>
          i.severity == IssueSeverity.critical
            || i.severity == IssueSeverity.error)).length
        warnings := (allIssues.filter
          (fun i => i.severity == IssueSeverity.warning)).length }
    let overallStatus : VerificationStatus :=
      if 0 < summary.criticalIssues ∨
         qDiv (qOfNat summary.totalTasks) 2 < qOfNat summary.tasksMissing then
        .fail
      else if 0 < summary.tasksPartial ∨ 0 < summary.tasksMissing then
        .partialMatch
      else .pass
    .ok
      { planId := plan.id
        phaseId :=
          if phaseTruthy opts.phase then
            some ("phase-".data ++ (Nat.repr (opts.phase.getD 0)).data)
          else none
        overallStatus := overallStatus
        taskResults := taskResults
        summary := summary
        recommendations := generateRecommendations taskResults summary }

/-! ## Concrete instances used by the claim witnesses -/

def c1Plan : Plan :=
  { id := "plan-1".data, title := [], description := [], phases := []
    metadata := { estimatedComplexity := .low, filesAffected := []
                  dependencies := [], estimatedTime := none }
    status := .ready }

def c1Fs : FS := fun _ => FileState.absent

def c1Res : VerificationResult :=
  { planId := "plan-1".data, phaseId := none
    overallStatus := .pass, taskResults := []
    summary := { totalTasks := 0, tasksCompleted := 0, tasksPartial := 0
                 tasksMissing := 0, criticalIssues := 0, warnings := 0 }
    recommendations :=
      ["Implementation looks good! Consider code review before merging".data] }

def c9Task : Task :=
  { id := "task-1".data, type := .create, file := "new.ts".data
    description := "Create new.ts".data, reasoning := [], changes := [] }

def c9Plan : Plan :=
  { id := "plan-9".data, title := [], description := []
    phases := [{ id := "phase-1".data, order := 1
                 name := "Implementation".data, description := []
                 tasks := [c9Task], dependencies := [], status := .pending }]
    metadata := { estimatedComplexity := .low, filesAffected := []
                  dependencies := [], estimatedTime := none }
    status := .ready }

def c9Fs : FS := fun _ => FileState.absent

def c9Opts : VerifyOptions := { phase := none, task := none, strictMode := false }

def c9Res : VerificationResult :=
  { planId := "plan-9".data, phaseId := none
    overallStatus := .fail
    taskResults :=
      [{ taskId := "task-1".data, file := "new.ts".data
         status := .fail
         issues :=
           [{ severity := .error, type := .missingImplementation
              message := "File not created: new.ts".data
              file := "new.ts".data, line := none
              suggestion := some "Create the file as specified in the plan".data }]
         matchPercentage := 0 }]
    summary := { totalTasks := 1, tasksCompleted := 0, tasksPartial := 0
                 tasksMissing := 1, criticalIssues := 1, warnings := 0 }
    recommendations :=
      ["Complete the 1 missing task".data,
       "Address critical issues before proceeding".data,
       "Review implementation of new.ts".data] }

def c10Task : Task :=
  { id := "task-1".data, type := .create, file := "a.ts".data
    description := "parseConfig helper".data, reasoning := [], changes := [] }

def c10Fs : FS := fun _ => FileState.present "parseconfig helper".data

def c10Res : TaskVerification :=
  { taskId := "task-1".data, file := "a.ts".data
    status := .pass, issues := [], matchPercentage := 80 }

def c4Task : Task :=
  { id := "task-1".data, type := .modify, file := "a.ts".data
    description := "parseConfig helper".data, reasoning := [], changes := [] }

def c4Fs : FS := fun _ => FileState.present "parseconfig helper".data

def c5Task : Task :=
  { id := "task-1".data, type := .create, file := "a.ts".data
    description := "Add parseConfig helper function".data
    reasoning := [], changes := [] }

def c5Fs : FS := fun _ => FileState.present "export function PARSEconfig helper".data

def c8Tasks : List Task :=
  [{ id := "task-1".data, type := .modify, file := "a.ts".data
     description := "Modify a.ts".data, reasoning := [], changes := [] },
   { id := "task-2".data, type := .modify, file := "b.ts".data
     description := "Modify b.ts".data, reasoning := [], changes := [] }]

def c8Plan : Plan :=
  { id := "plan-8".data, title := [], description := []
    phases := [{ id := "phase-1".data, order := 1, name := []
                 description := [], tasks := c8Tasks
                 dependencies := [], status := .pending }]
    metadata := { estimatedComplexity := .low, filesAffected := []
                  dependencies := [], estimatedTime := none }
    status := .ready }

/-- The file of the first task exists but cannot be read; the file of
the second task is present and readable. -/
def c8Fs : FS := fun p =>
  if p = pathJoin "root".data "a.ts".data then FileState.unreadable
  else FileState.present "content".data

def c8Opts : VerifyOptions := { phase := none, task := none, strictMode := false }

/-! ## Bridging lemmas for the executable rational helpers -/

theorem qOfNat_eq (n : Nat) : qOfNat n = (n : ℚ) := by
  unfold qOfNat; rw [Rat.mkRat_eq_div]; norm_num

theorem qAdd_eq (a b : ℚ) : qAdd a b = a + b := by
  unfold qAdd
  rw [Rat.mkRat_eq_div]
  have had : ((a.den : ℚ)) ≠ 0 := by exact_mod_cast a.den_nz
  have hbd : ((b.den : ℚ)) ≠ 0 := by exact_mod_cast b.den_nz
  conv_rhs => rw [← Rat.num_div_den a, ← Rat.num_div_den b]
  rw [div_add_div _ _ had hbd]
  push_cast
  ring_nf

theorem qMul_eq (a b : ℚ) : qMul a b = a * b := by
  unfold qMul
  rw [Rat.mkRat_eq_div]
  conv_rhs => rw [← Rat.num_div_den a, ← Rat.num_div_den b]
  rw [div_mul_div_comm]
  push_cast
  ring_nf

theorem qDiv_eq (a b : ℚ) : qDiv a b = a / b := by
  unfold qDiv
  rcases eq_or_ne b 0 with rfl | hb
  · rw [show ((0:ℚ).num) = 0 from rfl]
    rw [mul_zero, Rat.divInt_zero, div_zero]
  · rw [Rat.divInt_eq_div]
    conv_rhs => rw [← Rat.num_div_den a, ← Rat.num_div_den b]
    rw [div_div_eq_mul_div, div_mul_eq_mul_div, div_div]
    push_cast
    ring_nf

/-! ## Theorems -/

theorem verify_ok_fields {plan : Plan} {root : List Char} {fs : FS}
    {opts : VerifyOptions} {r : VerificationResult}
    (h : verify plan root fs opts = Except.ok r) :
    ∃ trs, verifyTasks root fs opts.strictMode (getTasksToVerify plan opts) = Except.ok trs ∧
      r.taskResults = trs ∧
      r.summary.totalTasks = trs.length ∧
      r.summary.tasksCompleted =
        (trs.filter (fun t => t.status == VerificationStatus.pass)).length ∧
      r.summary.tasksPartial =
        (trs.filter (fun t => t.status == VerificationStatus.partialMatch)).length ∧
      r.summary.tasksMissing =
        (trs.filter (fun t => t.status == VerificationStatus.fail)).length ∧
      r.summary.criticalIssues =
        (((trs.map (fun t => t.issues)).flatten).filter (fun i =>
          i.severity == IssueSeverity.critical || i.severity == IssueSeverity.error)).length ∧
      r.summary.warnings =
        (((trs.map (fun t => t.issues)).flatten).filter (fun i =>
          i.severity == IssueSeverity.warning)).length ∧
      r.overallStatus =
        (if 0 < r.summary.criticalIssues ∨
            qDiv (qOfNat r.summary.totalTasks) 2 < qOfNat r.summary.tasksMissing then
          VerificationStatus.fail
        else if 0 < r.summary.tasksPartial ∨ 0 < r.summary.tasksMissing then
          VerificationStatus.partialMatch
        else VerificationStatus.pass) := by
  unfold verify at h
  cases hts : verifyTasks root fs opts.strictMode (getTasksToVerify plan opts) with
  | error e => rw [hts] at h; cases h
  | ok trs =>
    rw [hts] at h
    simp only [Except.ok.injEq] at h
    refine ⟨trs, rfl, ?_⟩
    subst h
    refine ⟨rfl, rfl, rfl, rfl, rfl, rfl, rfl, rfl⟩



/-- C1: for every verification run that completes, the summary counts
tasksCompleted, tasksPartial and tasksMissing are exactly the numbers of
task results with status pass, partial and fail; criticalIssues counts
the issues of severity critical or error across all verified tasks; and
the overall status is fail when criticalIssues is positive or
tasksMissing exceeds totalTasks divided by two, else partial when any
task is partial or missing, else pass. -/
theorem c1_verification_summary (plan : Plan) (root : List Char) (fs : FS)
    (opts : VerifyOptions) (r : VerificationResult)
    (h : verify plan root fs opts = Except.ok r) :
    r.summary.totalTasks = r.taskResults.length ∧
    r.summary.tasksCompleted =
      (r.taskResults.filter (fun t => t.status == VerificationStatus.pass)).length ∧
    r.summary.tasksPartial =
      (r.taskResults.filter (fun t => t.status == VerificationStatus.partialMatch)).length ∧
    r.summary.tasksMissing =
      (r.taskResults.filter (fun t => t.status == VerificationStatus.fail)).length ∧
    r.summary.criticalIssues =
      (((r.taskResults.map (fun t => t.issues)).flatten).filter (fun i =>
        i.severity == IssueSeverity.critical || i.severity == IssueSeverity.error)).length ∧
    r.overallStatus =
      (if 0 < r.summary.criticalIssues ∨
          qDiv (qOfNat r.summary.totalTasks) 2 < qOfNat r.summary.tasksMissing then
        VerificationStatus.fail
      else if 0 < r.summary.tasksPartial ∨ 0 < r.summary.tasksMissing then
        VerificationStatus.partialMatch
      else VerificationStatus.pass) := by
  obtain ⟨trs, _, htr, h1, h2, h3, h4, h5, _, h7⟩ := verify_ok_fields h
  subst htr
  exact ⟨h1, h2, h3, h4, h5, h7⟩

theorem c1_witness :
    verify c1Plan "root".data c1Fs
      { phase := none, task := none, strictMode := false } = Except.ok c1Res ∧
    (c1Res.summary.totalTasks = c1Res.taskResults.length ∧
     c1Res.summary.tasksCompleted =
       (c1Res.taskResults.filter (fun t => t.status == VerificationStatus.pass)).length ∧
     c1Res.summary.tasksPartial =
       (c1Res.taskResults.filter (fun t => t.status == VerificationStatus.partialMatch)).length ∧
     c1Res.summary.tasksMissing =
       (c1Res.taskResults.filter (fun t => t.status == VerificationStatus.fail)).length ∧
     c1Res.summary.criticalIssues =
       (((c1Res.taskResults.map (fun t => t.issues)).flatten).filter (fun i =>
         i.severity == IssueSeverity.critical || i.severity == IssueSeverity.error)).length ∧
     c1Res.overallStatus =
       (if 0 < c1Res.summary.criticalIssues ∨
           qDiv (qOfNat c1Res.summary.totalTasks) 2 < qOfNat c1Res.summary.tasksMissing then
         VerificationStatus.fail
       else if 0 < c1Res.summary.tasksPartial ∨ 0 < c1Res.summary.tasksMissing then
         VerificationStatus.partialMatch
       else VerificationStatus.pass)) :=
  ⟨rfl, c1_verification_summary c1Plan "root".data c1Fs
    { phase := none, task := none, strictMode := false } c1Res rfl⟩



theorem verifyTask_fail_error_issue {task : Task} {root : List Char} {fs : FS}
    {sm : Bool} {res : TaskVerification}
    (hok : verifyTask task root fs sm = Except.ok res)
    (hty : task.type = TaskType.create ∨ task.type = TaskType.modify ∨
      task.type = TaskType.delete)
    (hfail : res.status = VerificationStatus.fail) :
    ∃ i ∈ res.issues, i.severity = IssueSeverity.error := by
  rcases hty with hty | hty | hty
  · simp only [verifyTask, hty, detectUnplannedChanges, List.map_nil, ite_self,
      List.append_nil] at hok
    split at hok
    · simp only [Except.ok.injEq] at hok; subst hok
      exact ⟨_, List.mem_singleton.mpr rfl, rfl⟩
    · split at hok
      · cases hok
      · split at hok
        · simp only [Except.ok.injEq] at hok; subst hok; simp at hfail
        · split at hok
          · simp only [Except.ok.injEq] at hok; subst hok; simp at hfail
          · simp only [Except.ok.injEq] at hok; subst hok
            exact ⟨_, List.mem_singleton.mpr rfl, rfl⟩
  · simp only [verifyTask, hty, detectUnplannedChanges, List.map_nil, ite_self,
      List.append_nil] at hok
    split at hok
    · simp only [Except.ok.injEq] at hok; subst hok
      exact ⟨_, List.mem_singleton.mpr rfl, rfl⟩
    · split at hok
      · cases hok
      · split at hok
        · simp only [Except.ok.injEq] at hok; subst hok; simp at hfail
        · split at hok
          · simp only [Except.ok.injEq] at hok; subst hok; simp at hfail
          · simp only [Except.ok.injEq] at hok; subst hok
            exact ⟨_, List.mem_singleton.mpr rfl, rfl⟩
  · simp only [verifyTask, hty, detectUnplannedChanges, List.map_nil, ite_self,
      List.append_nil] at hok
    split at hok
    · simp only [Except.ok.injEq] at hok; subst hok
      exact ⟨_, List.mem_singleton.mpr rfl, rfl⟩
    · simp only [Except.ok.injEq] at hok; subst hok; simp at hfail

theorem verifyTasks_ok_mem {root : List Char} {fs : FS} {sm : Bool} :
    ∀ {ts : List Task} {trs : List TaskVerification},
      verifyTasks root fs sm ts = Except.ok trs →
      ∀ r ∈ trs, ∃ t ∈ ts, verifyTask t root fs sm = Except.ok r := by
  intro ts
  induction ts with
  | nil =>
    intro trs h r hr
    simp only [verifyTasks, Except.ok.injEq] at h
    subst h; cases hr
  | cons t ts ih =>
    intro trs h r hr
    unfold verifyTasks at h
    cases h1 : verifyTask t root fs sm with
    | error e => rw [h1] at h; cases h
    | ok r1 =>
      rw [h1] at h
      cases h2 : verifyTasks root fs sm ts with
      | error e => rw [h2] at h; cases h
      | ok rs =>
        rw [h2] at h
        simp only [Except.ok.injEq] at h
        subst h
        rcases List.mem_cons.mp hr with rfl | hr2
        · exact ⟨t, List.mem_cons_self t ts, h1⟩
        · obtain ⟨t2, ht2, hv2⟩ := ih h2 r hr2
          exact ⟨t2, List.mem_cons_of_mem t ht2, hv2⟩

theorem count_fail_le_crit {trs : List TaskVerification}
    (h : ∀ r ∈ trs, r.status = VerificationStatus.fail →
      ∃ i ∈ r.issues, i.severity = IssueSeverity.error) :
    (trs.filter (fun t => t.status == VerificationStatus.fail)).length ≤
    (((trs.map (fun t => t.issues)).flatten).filter (fun i =>
      i.severity == IssueSeverity.critical ||
        i.severity == IssueSeverity.error)).length := by
  induction trs with
  | nil => simp
  | cons r rs ih =>
    have hr := h r (List.mem_cons_self r rs)
    have ihr := ih (fun x hx => h x (List.mem_cons_of_mem r hx))
    simp only [List.map_cons, List.flatten_cons, List.filter_append,
      List.length_append, List.filter_cons]
    by_cases hf : r.status = VerificationStatus.fail
    · obtain ⟨i, hi, hsev⟩ := hr hf
      have hmem : i ∈ r.issues.filter (fun i =>
          i.severity == IssueSeverity.critical ||
            i.severity == IssueSeverity.error) :=
        List.mem_filter.mpr ⟨hi, by simp [hsev]⟩
      have hpos : 0 < (r.issues.filter (fun i =>
          i.severity == IssueSeverity.critical ||
            i.severity == IssueSeverity.error)).length :=
        List.length_pos.mpr (List.ne_nil_of_mem hmem)
      simp only [hf, beq_self_eq_true, if_pos]
      simp only [List.length_cons]
      omega
    · have : (r.status == VerificationStatus.fail) = false := by
        simp [hf]
      simp only [this, Bool.false_eq_true, if_neg, ite_false]
      omega



/-- C9: every TaskVerification produced for a create, modify or delete
task with status fail carries at least one issue of severity error;
hence for a plan whose verified tasks all have these three types,
criticalIssues is at least tasksMissing, and as soon as one such task
fails the overall status is fail, never partial. -/
theorem c9_fail_forces_critical (plan : Plan) (root : List Char) (fs : FS)
    (opts : VerifyOptions) (r : VerificationResult)
    (htypes : ∀ t ∈ getTasksToVerify plan opts,
      t.type = TaskType.create ∨ t.type = TaskType.modify ∨
        t.type = TaskType.delete)
    (h : verify plan root fs opts = Except.ok r) :
    (∀ res ∈ r.taskResults, res.status = VerificationStatus.fail →
      ∃ i ∈ res.issues, i.severity = IssueSeverity.error) ∧
    r.summary.tasksMissing ≤ r.summary.criticalIssues ∧
    (0 < r.summary.tasksMissing →
      r.overallStatus = VerificationStatus.fail) := by
  obtain ⟨trs, hts, htr, _, _, _, h4, h5, _, h7⟩ := verify_ok_fields h
  subst htr
  have hper : ∀ res ∈ r.taskResults, res.status = VerificationStatus.fail →
      ∃ i ∈ res.issues, i.severity = IssueSeverity.error := by
    intro res hres hfail
    obtain ⟨t, ht, hv⟩ := verifyTasks_ok_mem hts res hres
    exact verifyTask_fail_error_issue hv (htypes t ht) hfail
  have hle : r.summary.tasksMissing ≤ r.summary.criticalIssues := by
    rw [h4, h5]; exact count_fail_le_crit hper
  refine ⟨hper, hle, fun hpos => ?_⟩
  rw [h7, if_pos (Or.inl (lt_of_lt_of_le hpos hle))]

theorem c9_witness :
    ((getTasksToVerify c9Plan c9Opts).all (fun t =>
      t.type == TaskType.create || t.type == TaskType.modify ||
        t.type == TaskType.delete) = true) ∧
    verify c9Plan "root".data c9Fs c9Opts = Except.ok c9Res ∧
    ((∀ res ∈ c9Res.taskResults, res.status = VerificationStatus.fail →
        ∃ i ∈ res.issues, i.severity = IssueSeverity.error) ∧
      c9Res.summary.tasksMissing ≤ c9Res.summary.criticalIssues ∧
      (0 < c9Res.summary.tasksMissing →
        c9Res.overallStatus = VerificationStatus.fail)) :=
  ⟨by decide, rfl,
    c9_fail_forces_critical c9Plan "root".data c9Fs c9Opts c9Res
      (by decide) rfl⟩



theorem fifty_le_base (a b : Nat) :
    (50:ℚ) ≤ qAdd 50 (qMul (qDiv (qOfNat a) (qOfNat b)) 30) := by
  rw [qAdd_eq, qMul_eq, qDiv_eq, qOfNat_eq, qOfNat_eq]
  have : (0:ℚ) ≤ (a:ℚ) / (b:ℚ) * 30 := by positivity
  linarith

theorem le_qAdd_bonus {s : ℚ} (h : (50:ℚ) ≤ s) (a b : Nat) :
    (50:ℚ) ≤ qAdd s (qMul (qDiv (qOfNat a) (qOfNat b)) 20) := by
  rw [qAdd_eq, qMul_eq, qDiv_eq, qOfNat_eq, qOfNat_eq]
  have : (0:ℚ) ≤ (a:ℚ) / (b:ℚ) * 20 := by positivity
  linarith

theorem calc_ge_fifty (content : List Char) (task : Task) :
    (50:ℚ) ≤ calculateMatchPercentage content task := by
  simp only [calculateMatchPercentage]
  refine le_min (by norm_num) (le_max_of_le_right ?_)
  split
  · exact fifty_le_base _ _
  · exact le_qAdd_bonus (fifty_le_base _ _) _ _

/-- C10: a create or modify task whose target file exists (and is
readable) always scores at least the base 50, so the below-threshold
fail branches are unreachable: the task resolves to pass or partial,
never fail. -/
theorem c10_existing_file_never_fail (task : Task) (root : List Char)
    (fs : FS) (sm : Bool) (content : List Char) (res : TaskVerification)
    (hty : task.type = TaskType.create ∨ task.type = TaskType.modify)
    (hfs : fs (pathJoin root task.file) = FileState.present content)
    (hok : verifyTask task root fs sm = Except.ok res) :
    (50:ℚ) ≤ res.matchPercentage ∧
    (res.status = VerificationStatus.pass ∨
      res.status = VerificationStatus.partialMatch) := by
  have hex : existsFs fs (pathJoin root task.file) = true := by
    simp [existsFs, hfs]
  have h50 := calc_ge_fifty content task
  rcases hty with hty | hty
  · simp only [verifyTask, hty, detectUnplannedChanges, List.map_nil, ite_self,
      List.append_nil, hex, Bool.not_true, Bool.false_eq_true, if_false,
      readFileFs, hfs] at hok
    split at hok
    · simp only [Except.ok.injEq] at hok; subst hok
      exact ⟨h50, Or.inl rfl⟩
    · simp only [Except.ok.injEq] at hok; subst hok
      exact ⟨h50, Or.inr rfl⟩
  · simp only [verifyTask, hty, detectUnplannedChanges, List.map_nil, ite_self,
      List.append_nil, hex, Bool.not_true, Bool.false_eq_true, if_false,
      readFileFs, hfs] at hok
    split at hok
    · simp only [Except.ok.injEq] at hok; subst hok
      exact ⟨h50, Or.inl rfl⟩
    · rw [if_pos (le_trans (by norm_num : (40:ℚ) ≤ 50) h50)] at hok
      simp only [Except.ok.injEq] at hok; subst hok
      exact ⟨h50, Or.inr rfl⟩



/-- C4: for a modify task whose target file exists (and is readable),
verification computes a match percentage m and assigns pass when
70 ≤ m, partial with one incorrect-implementation warning when
40 ≤ m < 70, and fail with one missing-implementation error when
m < 40 (the below-threshold issue type is missing-implementation,
unlike the create branch which reports incorrect-implementation). -/
theorem c4_modify_thresholds (task : Task) (root : List Char) (fs : FS)
    (sm : Bool) (content : List Char)
    (hty : task.type = TaskType.modify)
    (hfs : fs (pathJoin root task.file) = FileState.present content) :
    ∃ res, verifyTask task root fs sm = Except.ok res ∧
      res.matchPercentage = calculateMatchPercentage content task ∧
      ((70:ℚ) ≤ calculateMatchPercentage content task →
        res.status = VerificationStatus.pass) ∧
      ((40:ℚ) ≤ calculateMatchPercentage content task ∧
          calculateMatchPercentage content task < 70 →
        res.status = VerificationStatus.partialMatch ∧
        res.issues.map (fun i => (i.type, i.severity)) =
          [(IssueType.incorrectImplementation, IssueSeverity.warning)]) ∧
      (calculateMatchPercentage content task < 40 →
        res.status = VerificationStatus.fail ∧
        res.issues.map (fun i => (i.type, i.severity)) =
          [(IssueType.missingImplementation, IssueSeverity.error)]) := by
  have hex : existsFs fs (pathJoin root task.file) = true := by
    simp [existsFs, hfs]
  rcases le_or_lt 70 (calculateMatchPercentage content task) with h70 | h70
  · refine ⟨{ taskId := task.id, file := task.file
              status := VerificationStatus.pass, issues := []
              matchPercentage := calculateMatchPercentage content task },
      ?_, rfl, fun _ => rfl,
      fun h => ((not_le_of_lt h.2) h70).elim,
      fun h => ((not_le_of_lt (lt_of_lt_of_le h (by norm_num))) h70).elim⟩
    simp only [verifyTask, hty, detectUnplannedChanges, List.map_nil, ite_self,
      List.append_nil, hex, Bool.not_true, Bool.false_eq_true, if_false,
      readFileFs, hfs]
    rw [if_pos h70]
  · rcases le_or_lt 40 (calculateMatchPercentage content task) with h40 | h40
    · refine ⟨{ taskId := task.id, file := task.file
                status := VerificationStatus.partialMatch
                issues := [{ severity := IssueSeverity.warning
                             type := IssueType.incorrectImplementation
                             message := "Modifications may be incomplete (".data
                               ++ intRepr (jsRound (calculateMatchPercentage content task))
                               ++ "% confidence)".data
                             file := task.file, line := none
                             suggestion := some "Verify that all planned changes have been made".data }]
                matchPercentage := calculateMatchPercentage content task },
        ?_, rfl, fun h => ((not_le_of_lt h70) h).elim,
        fun _ => ⟨rfl, rfl⟩,
        fun h => ((not_le_of_lt h) h40).elim⟩
      simp only [verifyTask, hty, detectUnplannedChanges, List.map_nil, ite_self,
        List.append_nil, hex, Bool.not_true, Bool.false_eq_true, if_false,
        readFileFs, hfs]
      rw [if_neg (not_le_of_lt h70), if_pos h40]
    · refine ⟨{ taskId := task.id, file := task.file
                status := VerificationStatus.fail
                issues := [{ severity := IssueSeverity.error
                             type := IssueType.missingImplementation
                             message := "Required modifications not detected".data
                             file := task.file, line := none
                             suggestion := some "Review the plan and implement the required changes".data }]
                matchPercentage := calculateMatchPercentage content task },
        ?_, rfl, fun h => ((not_le_of_lt h70) h).elim,
        fun h => ((not_le_of_lt h40) h.1).elim,
        fun _ => ⟨rfl, rfl⟩⟩
      simp only [verifyTask, hty, detectUnplannedChanges, List.map_nil, ite_self,
        List.append_nil, hex, Bool.not_true, Bool.false_eq_true, if_false,
        readFileFs, hfs]
      rw [if_neg (not_le_of_lt h70), if_neg (not_le_of_lt h40)]



theorem c10_witness :
    (c10Task.type = TaskType.create ∨ c10Task.type = TaskType.modify) ∧
    c10Fs (pathJoin "root".data c10Task.file) =
      FileState.present "parseconfig helper".data ∧
    verifyTask c10Task "root".data c10Fs false = Except.ok c10Res ∧
    ((50:ℚ) ≤ c10Res.matchPercentage ∧
      (c10Res.status = VerificationStatus.pass ∨
        c10Res.status = VerificationStatus.partialMatch)) :=
  ⟨Or.inl rfl, rfl, rfl,
    c10_existing_file_never_fail c10Task "root".data c10Fs false
      "parseconfig helper".data c10Res (Or.inl rfl) rfl rfl⟩

theorem c4_witness :
    c4Task.type = TaskType.modify ∧
    c4Fs (pathJoin "root".data c4Task.file) =
      FileState.present "parseconfig helper".data ∧
    (∃ res, verifyTask c4Task "root".data c4Fs false = Except.ok res ∧
      res.matchPercentage = calculateMatchPercentage "parseconfig helper".data c4Task ∧
      ((70:ℚ) ≤ calculateMatchPercentage "parseconfig helper".data c4Task →
        res.status = VerificationStatus.pass) ∧
      ((40:ℚ) ≤ calculateMatchPercentage "parseconfig helper".data c4Task ∧
          calculateMatchPercentage "parseconfig helper".data c4Task < 70 →
        res.status = VerificationStatus.partialMatch ∧
        res.issues.map (fun i => (i.type, i.severity)) =
          [(IssueType.incorrectImplementation, IssueSeverity.warning)]) ∧
      (calculateMatchPercentage "parseconfig helper".data c4Task < 40 →
        res.status = VerificationStatus.fail ∧
        res.issues.map (fun i => (i.type, i.severity)) =
          [(IssueType.missingImplementation, IssueSeverity.error)])) :=
  ⟨rfl, rfl,
    c4_modify_thresholds c4Task "root".data c4Fs false
      "parseconfig helper".data rfl rfl⟩

/-- C5: a create task with no changes whose description yields at least
one keyword, against an existing file whose content contains every
keyword case-insensitively, scores exactly 80 (base 50 plus full
keyword bonus 30, no change bonus) and passes. -/
theorem c5_create_full_keyword_match (task : Task) (root : List Char)
    (fs : FS) (sm : Bool) (content : List Char)
    (hty : task.type = TaskType.create)
    (hch : task.changes = [])
    (hkw : extractKeywords task.description ≠ [])
    (hfs : fs (pathJoin root task.file) = FileState.present content)
    (hall : ∀ kw ∈ extractKeywords task.description,
      containsSub (content.map lowerAscii) (kw.map lowerAscii) = true) :
    ∃ res, verifyTask task root fs sm = Except.ok res ∧
      res.matchPercentage = 80 ∧
      res.status = VerificationStatus.pass := by
  have hex : existsFs fs (pathJoin root task.file) = true := by
    simp [existsFs, hfs]
  have hchEmpty : task.changes.isEmpty = true := by rw [hch]; rfl
  have hm : calculateMatchPercentage content task = 80 := by
    simp only [calculateMatchPercentage]
    rw [if_pos hchEmpty]
    rw [List.filter_eq_self.mpr hall]
    have hn : (extractKeywords task.description).length ≠ 0 :=
      fun h => hkw (List.eq_nil_of_length_eq_zero h)
    rw [Nat.max_eq_left (Nat.one_le_iff_ne_zero.mpr hn)]
    rw [qAdd_eq, qMul_eq, qDiv_eq, qOfNat_eq]
    rw [div_self (by exact_mod_cast hn :
      (((extractKeywords task.description).length : ℚ)) ≠ 0)]
    norm_num
  refine ⟨{ taskId := task.id, file := task.file
            status := VerificationStatus.pass, issues := []
            matchPercentage := calculateMatchPercentage content task },
    ?_, by rw [hm], rfl⟩
  simp only [verifyTask, hty, detectUnplannedChanges, List.map_nil, ite_self,
    List.append_nil, hex, Bool.not_true, Bool.false_eq_true, if_false,
    readFileFs, hfs]
  rw [if_pos (by rw [hm] :
    (80:ℚ) ≤ calculateMatchPercentage content task)]



theorem c5_witness :
    c5Task.type = TaskType.create ∧
    c5Task.changes = [] ∧
    extractKeywords c5Task.description ≠ [] ∧
    c5Fs (pathJoin "root".data c5Task.file) =
      FileState.present "export function PARSEconfig helper".data ∧
    ((extractKeywords c5Task.description).all (fun kw =>
      containsSub ("export function PARSEconfig helper".data.map lowerAscii)
        (kw.map lowerAscii)) = true) ∧
    (∃ res, verifyTask c5Task "root".data c5Fs false = Except.ok res ∧
      res.matchPercentage = 80 ∧
      res.status = VerificationStatus.pass) :=
  ⟨rfl, rfl, by decide, rfl, by decide,
    c5_create_full_keyword_match c5Task "root".data c5Fs false
      "export function PARSEconfig helper".data rfl rfl (by decide) rfl
      (by decide)⟩

/-- C6 (code bug): for a section containing one discovered file path,
the emitted task id is not `task-1`.  `Set.prototype.forEach` passes
the element itself as the second callback argument, so the template
`task-(idx + 1)` concatenates the file string with the digit 1,
producing `task-src/app.ts1`. -/
theorem c6_task_id_concatenation :
    (extractTasks "Modify `src/app.ts`".data).map (fun t => t.id) =
      ["task-src/app.ts1".data] ∧
    "task-src/app.ts1".data ≠ "task-1".data := by
  constructor
  · rfl
  · decide



theorem tryMatchHere_none {s : List Char} (h : headingAt s = false) :
    tryMatchHere s = none := by
  rw [tryMatchHere.eq_def]
  split
  · next r =>
    cases r with
    | nil => rfl
    | cons c t =>
      have hc : isJsWs c = false := by
        simpa [headingAt] using h
      simp [List.takeWhile_cons, hc]
  · rfl

theorem hasHeadingPos_tail {a : Char} {t : List Char}
    (h : hasHeadingPos (a :: t) = false) : hasHeadingPos t = false := by
  have := h
  rw [hasHeadingPos] at this
  exact (Bool.or_eq_false_iff.mp this).2

theorem headingAt_false_of_hasHeadingPos {s : List Char}
    (h : hasHeadingPos s = false) : headingAt s = false := by
  cases s with
  | nil => rfl
  | cons a t =>
    rw [hasHeadingPos] at h
    exact (Bool.or_eq_false_iff.mp h).1

theorem scanAux_nil_of_no_heading :
    ∀ (fuel : Nat) (s : List Char), hasHeadingPos s = false →
      scanAux fuel s = [] := by
  intro fuel
  induction fuel with
  | zero => intro s h; cases s <;> rfl
  | succ f ih =>
    intro s h
    cases s with
    | nil => rfl
    | cons c t =>
      rw [scanAux, tryMatchHere_none (headingAt_false_of_hasHeadingPos h)]
      exact ih t (hasHeadingPos_tail h)

theorem scanPhases_nil_of_no_heading {s : List Char}
    (h : hasHeadingPos s = false) : scanPhases s = [] :=
  scanAux_nil_of_no_heading s.length s h

theorem extractTasks_ne_nil (content : List Char) :
    extractTasks content ≠ [] := by
  simp only [extractTasks]
  split
  · exact List.cons_ne_nil _ _
  · next h =>
    intro hnil
    rw [hnil] at h
    exact h rfl



theorem buildPhases_tasks_ne_nil :
    ∀ (ms : List (List Char × List Char)) (idx : Nat),
      ∀ ph ∈ buildPhases idx ms, ph.tasks ≠ [] := by
  intro ms
  induction ms with
  | nil => intro idx ph hph; cases hph
  | cons p rest ih =>
    intro idx ph hph
    rcases p with ⟨m, g⟩
    rcases List.mem_cons.mp hph with rfl | hmem
    · exact extractTasks_ne_nil m
    · exact ih (idx + 1) ph hmem

theorem extractPhases_ne_nil (md : List Char) : extractPhases md ≠ [] := by
  simp only [extractPhases]
  split
  · exact List.cons_ne_nil _ _
  · split
    · exact List.cons_ne_nil _ _
    · next h =>
      intro hnil
      rw [hnil] at h
      exact h rfl

theorem extractPhases_tasks_ne_nil (md : List Char) :
    ∀ ph ∈ extractPhases md, ph.tasks ≠ [] := by
  simp only [extractPhases]
  split
  · intro ph hph
    rcases List.mem_singleton.mp hph with rfl
    exact extractTasks_ne_nil md
  · split
    · intro ph hph
      rcases List.mem_singleton.mp hph with rfl
      exact extractTasks_ne_nil md
    · exact buildPhases_tasks_ne_nil _ 0

/-- C2: the plan extractor is total and its fallbacks are as documented:
every extracted plan has at least one phase and every phase at least one
task; for markdown with no `##` heading occurrence the plan has exactly
one phase named Implementation whose tasks come from the whole document,
with the placeholder task (file `implementation`, type modify) when no
file paths are found. -/
theorem c2_extractor_total_fallback (md desc : List Char)
    (deps : List (List Char)) (now : Nat)
    (hnh : hasHeadingPos md = false) :
    ((parsePlanFromMarkdown md desc ⟨⟨deps⟩⟩ now).phases =
      [fallbackPhase md] ∧
     (fallbackPhase md).name = "Implementation".data ∧
     (fallbackPhase md).tasks = extractTasks md ∧
     extractTasks md ≠ [] ∧
     (filesFoundOf md = [] → extractTasks md = [placeholderTask])) ∧
    (∀ (md2 desc2 : List Char) (deps2 : List (List Char)) (now2 : Nat),
      (parsePlanFromMarkdown md2 desc2 ⟨⟨deps2⟩⟩ now2).phases ≠ [] ∧
      ∀ ph ∈ (parsePlanFromMarkdown md2 desc2 ⟨⟨deps2⟩⟩ now2).phases,
        ph.tasks ≠ []) := by
  constructor
  · refine ⟨?_, rfl, rfl, extractTasks_ne_nil md, ?_⟩
    · show extractPhases md = [fallbackPhase md]
      simp only [extractPhases, scanPhases_nil_of_no_heading hnh]
      rfl
    · intro hff
      simp only [extractTasks, hff, List.map_nil]
      rfl
  · intro md2 desc2 deps2 now2
    exact ⟨extractPhases_ne_nil md2, extractPhases_tasks_ne_nil md2⟩

theorem c2_witness :
    hasHeadingPos "plain request with no headings at all".data = false ∧
    (((parsePlanFromMarkdown "plain request with no headings at all".data
        "desc".data ⟨⟨[]⟩⟩ 0).phases =
      [fallbackPhase "plain request with no headings at all".data] ∧
     (fallbackPhase "plain request with no headings at all".data).name =
       "Implementation".data ∧
     (fallbackPhase "plain request with no headings at all".data).tasks =
       extractTasks "plain request with no headings at all".data ∧
     extractTasks "plain request with no headings at all".data ≠ [] ∧
     (filesFoundOf "plain request with no headings at all".data = [] →
       extractTasks "plain request with no headings at all".data =
         [placeholderTask])) ∧
    (∀ (md2 desc2 : List Char) (deps2 : List (List Char)) (now2 : Nat),
      (parsePlanFromMarkdown md2 desc2 ⟨⟨deps2⟩⟩ now2).phases ≠ [] ∧
      ∀ ph ∈ (parsePlanFromMarkdown md2 desc2 ⟨⟨deps2⟩⟩ now2).phases,
        ph.tasks ≠ [])) :=
  ⟨by decide,
    c2_extractor_total_fallback "plain request with no headings at all".data
      "desc".data [] 0 (by decide)⟩



theorem buildPhases_length (ms : List (List Char × List Char)) :
    ∀ idx, (buildPhases idx ms).length = ms.length := by
  induction ms with
  | nil => intro idx; rfl
  | cons p rest ih =>
    intro idx
    rcases p with ⟨m, g⟩
    simp only [buildPhases, List.length_cons, ih (idx + 1)]

theorem buildPhases_get (ms : List (List Char × List Char)) :
    ∀ (idx k : Nat) (hk : k < (buildPhases idx ms).length),
      ((buildPhases idx ms).get ⟨k, hk⟩).id =
        "phase-".data ++ (Nat.repr (idx + k + 1)).data ∧
      ((buildPhases idx ms).get ⟨k, hk⟩).order = idx + k + 1 ∧
      ((buildPhases idx ms).get ⟨k, hk⟩).dependencies =
        (if 0 < idx + k then ["phase-".data ++ (Nat.repr (idx + k)).data]
         else []) := by
  induction ms with
  | nil => intro idx k hk; cases hk
  | cons p rest ih =>
    intro idx k hk
    rcases p with ⟨m, g⟩
    cases k with
    | zero => exact ⟨rfl, rfl, rfl⟩
    | succ j =>
      have hj : j < (buildPhases (idx + 1) rest).length := by
        have := hk
        simp only [buildPhases, List.length_cons] at this
        omega
      have e1 : idx + (j + 1) + 1 = idx + 1 + j + 1 := by omega
      have e2 : idx + (j + 1) = idx + 1 + j := by omega
      obtain ⟨h1, h2, h3⟩ := ih (idx + 1) j hj
      exact ⟨by rw [e1]; exact h1, by rw [e1]; exact h2, by rw [e2]; exact h3⟩

/-- C3: for markdown in which the extractor finds N `##` section
matches (N at least 1), extraction yields exactly N phases whose ids
are phase-1 through phase-N, whose order fields are 1..N matching list
position, and whose dependencies form the strict linear chain: phase
k+1 depends exactly on phase k, and phase 1 has no dependencies. -/
theorem c3_phase_numbering_chain (md : List Char)
    (h : 1 ≤ (scanPhases md).length) :
    (extractPhases md).length = (scanPhases md).length ∧
    ∀ k (hk : k < (extractPhases md).length),
      ((extractPhases md).get ⟨k, hk⟩).id =
        "phase-".data ++ (Nat.repr (k + 1)).data ∧
      ((extractPhases md).get ⟨k, hk⟩).order = k + 1 ∧
      ((extractPhases md).get ⟨k, hk⟩).dependencies =
        (if k = 0 then [] else ["phase-".data ++ (Nat.repr k).data]) := by
  have hms : scanPhases md ≠ [] := by
    intro hnil; rw [hnil] at h; cases h
  have hphases : extractPhases md = buildPhases 0 (scanPhases md) := by
    simp only [extractPhases]
    rw [if_neg, if_neg]
    · intro hemp
      have : buildPhases 0 (scanPhases md) = [] := List.isEmpty_iff.mp hemp
      have hlen := buildPhases_length (scanPhases md) 0
      rw [this] at hlen
      exact hms (List.eq_nil_of_length_eq_zero hlen.symm)
    · intro hemp
      exact hms (List.isEmpty_iff.mp hemp)
  rw [hphases]
  constructor
  · rw [buildPhases_length]
  · intro k hk
    obtain ⟨h1, h2, h3⟩ := buildPhases_get (scanPhases md) 0 k hk
    refine ⟨by simpa using h1, by simpa using h2, ?_⟩
    rw [h3]
    cases k with
    | zero => simp
    | succ j => simp

theorem c3_witness :
    1 ≤ (scanPhases "## A\n## B".data).length ∧
    ((extractPhases "## A\n## B".data).length =
      (scanPhases "## A\n## B".data).length ∧
    ∀ k (hk : k < (extractPhases "## A\n## B".data).length),
      ((extractPhases "## A\n## B".data).get ⟨k, hk⟩).id =
        "phase-".data ++ (Nat.repr (k + 1)).data ∧
      ((extractPhases "## A\n## B".data).get ⟨k, hk⟩).order = k + 1 ∧
      ((extractPhases "## A\n## B".data).get ⟨k, hk⟩).dependencies =
        (if k = 0 then [] else ["phase-".data ++ (Nat.repr k).data])) :=
  ⟨by decide, c3_phase_numbering_chain "## A\n## B".data (by decide)⟩



theorem verifyTask_error_of_unreadable {task : Task} {root : List Char}
    {fs : FS} {sm : Bool}
    (hty : task.type = TaskType.create ∨ task.type = TaskType.modify)
    (hun : fs (pathJoin root task.file) = FileState.unreadable) :
    verifyTask task root fs sm = Except.error () := by
  have hex : existsFs fs (pathJoin root task.file) = true := by
    simp [existsFs, hun]
  rcases hty with hty | hty <;>
    simp [verifyTask, hty, hex, readFileFs, hun]

theorem verifyTasks_error_of_mem {root : List Char} {fs : FS} {sm : Bool} :
    ∀ {ts : List Task},
      (∃ t ∈ ts, verifyTask t root fs sm = Except.error ()) →
      verifyTasks root fs sm ts = Except.error () := by
  intro ts
  induction ts with
  | nil => rintro ⟨t, ht, _⟩; cases ht
  | cons a l ih =>
    rintro ⟨t, ht, herr⟩
    rcases List.mem_cons.mp ht with rfl | hmem
    · simp [verifyTasks, herr]
    · unfold verifyTasks
      cases ha : verifyTask a root fs sm with
      | error e => cases e; rfl
      | ok r => rw [ih ⟨t, hmem, herr⟩]

theorem verifyTask_ok_status_ne_error {task : Task} {root : List Char}
    {fs : FS} {sm : Bool} {res : TaskVerification}
    (hok : verifyTask task root fs sm = Except.ok res) :
    res.status ≠ VerificationStatus.error := by
  cases htt : task.type <;>
    simp only [verifyTask, htt, detectUnplannedChanges, List.map_nil,
      ite_self, List.append_nil] at hok <;>
    repeat' split at hok
  any_goals cases hok
  all_goals simp



/-- C8 (amended): when reading the target file of a create or modify task
fails after the existence probe reported it present, the
FileSystemError propagates: verifyTask yields no TaskVerification, the
whole run aborts with an error (no results for the remaining tasks
either), and the verifier never assigns the error status to any task
result it does produce. -/
theorem c8_read_error_aborts_run (task : Task) (root : List Char)
    (fs : FS) (plan : Plan) (opts : VerifyOptions)
    (hty : task.type = TaskType.create ∨ task.type = TaskType.modify)
    (hun : fs (pathJoin root task.file) = FileState.unreadable) :
    verifyTask task root fs opts.strictMode = Except.error () ∧
    (task ∈ getTasksToVerify plan opts →
      verify plan root fs opts = Except.error ()) ∧
    (∀ (t2 : Task) (res : TaskVerification),
      verifyTask t2 root fs opts.strictMode = Except.ok res →
      res.status ≠ VerificationStatus.error) := by
  have herr := @verifyTask_error_of_unreadable task root fs opts.strictMode hty hun
  refine ⟨herr, fun hmem => ?_, fun t2 res hok =>
    verifyTask_ok_status_ne_error hok⟩
  unfold verify
  rw [verifyTasks_error_of_mem ⟨task, hmem, herr⟩]

/-- C8 (counterexample): with two modify tasks whose first target file
passes the existence check but fails to read, the whole verification
run aborts with the propagated error; no VerificationResult is
produced, so no task is given the error status and the second task is
never reported on. -/
theorem c8_counterexample :
    existsFs c8Fs (pathJoin "root".data "a.ts".data) = true ∧
    verify c8Plan "root".data c8Fs c8Opts = Except.error () :=
  ⟨rfl, rfl⟩

theorem c8_witness :
    ((c8Tasks.get ⟨0, by decide⟩).type = TaskType.create ∨
      (c8Tasks.get ⟨0, by decide⟩).type = TaskType.modify) ∧
    c8Fs (pathJoin "root".data (c8Tasks.get ⟨0, by decide⟩).file) =
      FileState.unreadable ∧
    (verifyTask (c8Tasks.get ⟨0, by decide⟩) "root".data c8Fs
        c8Opts.strictMode = Except.error () ∧
      ((c8Tasks.get ⟨0, by decide⟩) ∈ getTasksToVerify c8Plan c8Opts →
        verify c8Plan "root".data c8Fs c8Opts = Except.error ()) ∧
      (∀ (t2 : Task) (res : TaskVerification),
        verifyTask t2 "root".data c8Fs c8Opts.strictMode = Except.ok res →
        res.status ≠ VerificationStatus.error)) :=
  ⟨Or.inr rfl, rfl,
    c8_read_error_aborts_run (c8Tasks.get ⟨0, by decide⟩) "root".data c8Fs
      c8Plan c8Opts (Or.inr rfl) rfl⟩



theorem lazyContent_of_no_heading :
    ∀ {s : List Char}, hasHeadingPos s = false → s ≠ [] →
      lazyContent s = (s, []) := by
  intro s
  induction s with
  | nil => intro _ h; exact absurd rfl h
  | cons c t ih =>
    intro hnh _
    cases t with
    | nil => rfl
    | cons b u =>
      have hta : headingAt (b :: u) = false :=
        headingAt_false_of_hasHeadingPos (hasHeadingPos_tail hnh)
      rw [lazyContent, if_neg]
      · rw [ih (hasHeadingPos_tail hnh) (List.cons_ne_nil b u)]
      · simp [hta]

theorem hasHeadingPos_dropWhile {p : Char → Bool} :
    ∀ {s : List Char}, hasHeadingPos s = false →
      hasHeadingPos (s.dropWhile p) = false := by
  intro s
  induction s with
  | nil => intro h; exact h
  | cons c t ih =>
    intro h
    rw [List.dropWhile_cons]
    split
    · exact ih (hasHeadingPos_tail h)
    · exact h

theorem dropWhile_idem {p : Char → Bool} :
    ∀ (s : List Char), (s.dropWhile p).dropWhile p = s.dropWhile p := by
  intro s
  induction s with
  | nil => rfl
  | cons c t ih =>
    rw [List.dropWhile_cons]
    split
    · exact ih
    · next hp => rw [List.dropWhile_cons, if_neg hp]

theorem jsTrim_dropWhile (s : List Char) :
    jsTrim (s.dropWhile isJsWs) = jsTrim s := by
  unfold jsTrim
  rw [dropWhile_idem]

theorem tryMatchHere_plain {c : Char} {rest : List Char}
    (hc : isJsWs c = true)
    (hne : (c :: rest).dropWhile isJsWs ≠ [])
    (hnl : matchPhaseLabel ((c :: rest).dropWhile isJsWs) = none)
    (hnh : hasHeadingPos (c :: rest) = false) :
    tryMatchHere ('#' :: '#' :: c :: rest) =
      some ('#' :: '#' :: c :: rest, (c :: rest).dropWhile isJsWs, []) := by
  have hdw : (c :: rest).dropWhile isJsWs = rest.dropWhile isJsWs := by
    rw [List.dropWhile_cons, if_pos hc]
  have htw : (c :: rest).takeWhile isJsWs = c :: rest.takeWhile isJsWs := by
    rw [List.takeWhile_cons, if_pos hc]
  rw [hdw] at hne hnl
  show (let w := (c :: rest).takeWhile isJsWs
        let r1 := (c :: rest).dropWhile isJsWs
        if w.isEmpty then none
        else if r1.isEmpty then
          if 2 ≤ w.length then
            some ('#' :: '#' :: w, [w.getLastD ' '], [])
          else none
        else
          match matchPhaseLabel r1 with
          | some (pc, pr) =>
            some ('#' :: '#' :: (w ++ pc ++ (lazyContent pr).1),
                  (lazyContent pr).1, (lazyContent pr).2)
          | none =>
            some ('#' :: '#' :: (w ++ (lazyContent r1).1),
                  (lazyContent r1).1, (lazyContent r1).2)) =
      some ('#' :: '#' :: c :: rest, (c :: rest).dropWhile isJsWs, [])
  simp only [hdw, htw]
  rw [if_neg (by simp), if_neg (by simp [List.isEmpty_iff, hne]), hnl]
  have hlc : lazyContent (rest.dropWhile isJsWs) =
      (rest.dropWhile isJsWs, []) := by
    apply lazyContent_of_no_heading
    · rw [← hdw]
      exact hasHeadingPos_dropWhile hnh
    · exact hne
  rw [hlc]
  have : c :: rest.takeWhile isJsWs ++ rest.dropWhile isJsWs = c :: rest := by
    rw [List.cons_append, List.takeWhile_append_dropWhile]
  simp only [← List.cons_append, this]



theorem matchPhaseLabel_one {c0 : Char} {t0 : List Char}
    (hc0 : isColonWs c0 = false) :
    matchPhaseLabel ('P' :: 'h' :: 'a' :: 's' :: 'e' :: ' ' :: '1' :: ':' :: ' ' :: c0 :: t0) =
      some (['P', 'h', 'a', 's', 'e', ' ', '1', ':', ' '], c0 :: t0) := by
  show (let w := (' ' :: '1' :: ':' :: ' ' :: c0 :: t0).takeWhile isJsWs
        let r1 := (' ' :: '1' :: ':' :: ' ' :: c0 :: t0).dropWhile isJsWs
        if w.isEmpty then none
        else
          let d := r1.takeWhile isAsciiDigit
          let r2 := r1.dropWhile isAsciiDigit
          if d.isEmpty then none
          else
            let cs := r2.takeWhile isColonWs
            let r3 := r2.dropWhile isColonWs
            if cs.isEmpty then none
            else if r3.isEmpty then
              if 2 ≤ cs.length then
                some (['P', 'h', 'a', 's', 'e'] ++ w ++ d ++ cs.dropLast,
                      [cs.getLastD ' '])
              else none
            else some (['P', 'h', 'a', 's', 'e'] ++ w ++ d ++ cs, r3)) =
      some (['P', 'h', 'a', 's', 'e', ' ', '1', ':', ' '], c0 :: t0)
  have h1 : (' ' :: '1' :: ':' :: ' ' :: c0 :: t0).takeWhile isJsWs = [' '] := by
    rw [List.takeWhile_cons, if_pos (by decide), List.takeWhile_cons, if_neg (by decide)]
  have h2 : (' ' :: '1' :: ':' :: ' ' :: c0 :: t0).dropWhile isJsWs =
      '1' :: ':' :: ' ' :: c0 :: t0 := by
    rw [List.dropWhile_cons, if_pos (by decide), List.dropWhile_cons, if_neg (by decide)]
  have h3 : ('1' :: ':' :: ' ' :: c0 :: t0).takeWhile isAsciiDigit = ['1'] := by
    rw [List.takeWhile_cons, if_pos (by decide), List.takeWhile_cons, if_neg (by decide)]
  have h4 : ('1' :: ':' :: ' ' :: c0 :: t0).dropWhile isAsciiDigit =
      ':' :: ' ' :: c0 :: t0 := by
    rw [List.dropWhile_cons, if_pos (by decide), List.dropWhile_cons, if_neg (by decide)]
  have h5 : (':' :: ' ' :: c0 :: t0).takeWhile isColonWs = [':', ' '] := by
    rw [List.takeWhile_cons, if_pos (by decide), List.takeWhile_cons, if_pos (by decide),
      List.takeWhile_cons, if_neg (by simp [hc0])]
  have h6 : (':' :: ' ' :: c0 :: t0).dropWhile isColonWs = c0 :: t0 := by
    rw [List.dropWhile_cons, if_pos (by decide), List.dropWhile_cons, if_pos (by decide),
      List.dropWhile_cons, if_neg (by simp [hc0])]
  simp only [h1, h2, h3, h4, h5, h6]
  rw [if_neg (by simp), if_neg (by simp), if_neg (by simp)]
  rfl

theorem tryMatchHere_label {c0 : Char} {t0 : List Char}
    (hc0 : isColonWs c0 = false)
    (hnh : hasHeadingPos (c0 :: t0) = false) :
    tryMatchHere ('#' :: '#' :: ' ' :: 'P' :: 'h' :: 'a' :: 's' :: 'e' ::
        ' ' :: '1' :: ':' :: ' ' :: c0 :: t0) =
      some ('#' :: '#' :: ' ' :: 'P' :: 'h' :: 'a' :: 's' :: 'e' ::
        ' ' :: '1' :: ':' :: ' ' :: c0 :: t0, c0 :: t0, []) := by
  have hc0ws : isJsWs c0 = false := by
    have := hc0
    unfold isColonWs at this
    exact (Bool.or_eq_false_iff.mp this).2
  set r : List Char := ' ' :: 'P' :: 'h' :: 'a' :: 's' :: 'e' ::
    ' ' :: '1' :: ':' :: ' ' :: c0 :: t0 with hr
  show (let w := r.takeWhile isJsWs
        let r1 := r.dropWhile isJsWs
        if w.isEmpty then none
        else if r1.isEmpty then
          if 2 ≤ w.length then
            some ('#' :: '#' :: w, [w.getLastD ' '], [])
          else none
        else
          match matchPhaseLabel r1 with
          | some (pc, pr) =>
            some ('#' :: '#' :: (w ++ pc ++ (lazyContent pr).1),
                  (lazyContent pr).1, (lazyContent pr).2)
          | none =>
            some ('#' :: '#' :: (w ++ (lazyContent r1).1),
                  (lazyContent r1).1, (lazyContent r1).2)) =
      some ('#' :: '#' :: r, c0 :: t0, [])
  have h1 : r.takeWhile isJsWs = [' '] := by
    rw [hr, List.takeWhile_cons, if_pos (by decide), List.takeWhile_cons,
      if_neg (by decide)]
  have h2 : r.dropWhile isJsWs = 'P' :: 'h' :: 'a' :: 's' :: 'e' ::
      ' ' :: '1' :: ':' :: ' ' :: c0 :: t0 := by
    rw [hr, List.dropWhile_cons, if_pos (by decide), List.dropWhile_cons,
      if_neg (by decide)]
  simp only [h1, h2]
  rw [if_neg (by simp), if_neg (by simp), matchPhaseLabel_one hc0]
  have hlc : lazyContent (c0 :: t0) = (c0 :: t0, []) :=
    lazyContent_of_no_heading hnh (List.cons_ne_nil c0 t0)
  simp only [hlc, hr]
  rfl



theorem scanPhases_single {md m g : List Char}
    (h : tryMatchHere md = some (m, g, [])) (hmd : md ≠ []) :
    scanPhases md = [(m, g)] := by
  unfold scanPhases
  cases md with
  | nil => exact absurd rfl hmd
  | cons c t =>
    rw [List.length_cons, scanAux, h]
    show (m, g) :: scanAux t.length [] = [(m, g)]
    rw [scanAux]

theorem extractPhases_single {md m g : List Char}
    (h : scanPhases md = [(m, g)]) :
    extractPhases md =
      [{ id := "phase-1".data, order := 1, name := jsTrim g
         description := m.take 200, tasks := extractTasks m
         dependencies := [], status := .pending }] := by
  simp only [extractPhases, h]
  rfl

/-! Generic lemmas about the phase regex scan on a well-shaped section:
the whitespace, digit and separator runs the pattern consumes, the lazy
group stopping at the next heading or the end of input, and the scan
resuming on the rest of the document after a match. -/

theorem runSplit {p : Char → Bool} :
    ∀ {xs : List Char} {y : Char} {ys : List Char},
      (∀ x ∈ xs, p x = true) → p y = false →
      (xs ++ y :: ys).takeWhile p = xs ∧ (xs ++ y :: ys).dropWhile p = y :: ys := by
  intro xs
  induction xs with
  | nil =>
    intro y ys _ hy
    constructor
    · simp [List.takeWhile_cons, hy]
    · simp [List.dropWhile_cons, hy]
  | cons a as ih =>
    intro y ys hall hy
    have ha : p a = true := hall a (by simp)
    have hrec := @ih y ys (fun x hx => hall x (by simp [hx])) hy
    constructor
    · rw [List.cons_append, List.takeWhile_cons, if_pos ha, hrec.1]
    · rw [List.cons_append, List.dropWhile_cons, if_pos ha, hrec.2]

theorem digit_not_ws {c : Char} (h : isAsciiDigit c = true) : isJsWs c = false := by
  have hp : '0' ≤ c ∧ c ≤ '9' := by
    simpa [isAsciiDigit] using h
  by_contra hw
  rw [Bool.not_eq_false] at hw
  simp only [isJsWs, Bool.or_eq_true, Bool.and_eq_true, decide_eq_true_eq] at hw
  rcases hw with
    ((((((((((((((h1|h1)|h1)|h1)|h1)|h1)|h1)|h1)|⟨hr1, hr2⟩)|h1)|h1)|h1)|h1)|h1)|h1)
  all_goals first
    | (subst h1; exact absurd h (by decide))
    | (exact absurd (le_trans hr1 hp.2) (by decide))

theorem colonws_not_digit {c : Char} (h : isColonWs c = true) :
    isAsciiDigit c = false := by
  simp only [isColonWs, Bool.or_eq_true, decide_eq_true_eq] at h
  rcases h with h | h
  · subst h; decide
  · by_contra hd
    rw [Bool.not_eq_false] at hd
    exact absurd (digit_not_ws hd) (by simp [h])

theorem lazyContent_append :
    ∀ {body : List Char} (tail : List Char), body ≠ [] →
      (headingAt tail = true ∨ tail = []) →
      (∀ n, n < body.length → 0 < n →
        headingAt (body.drop n ++ tail) = false) →
      lazyContent (body ++ tail) = (body, tail) := by
  intro body
  induction body with
  | nil => intro tail h; exact absurd rfl h
  | cons b bs ih =>
    intro tail _ hstop hins
    cases bs with
    | nil =>
      show lazyContent (b :: tail) = ([b], tail)
      rcases hstop with h | h
      · simp [lazyContent, h]
      · subst h; simp [lazyContent]
    | cons b2 bs2 =>
      have hh : headingAt (b2 :: (bs2 ++ tail)) = false := by
        have h1 := hins 1 (by simp) (by simp)
        simpa using h1
      have hrec := ih tail (by simp) hstop (fun n hn h0 => by
        have h2 := hins (n + 1) (by simpa using Nat.succ_lt_succ hn) (Nat.succ_pos n)
        simpa using h2)
      show lazyContent (b :: ((b2 :: bs2) ++ tail)) = (b :: (b2 :: bs2), tail)
      rw [lazyContent]
      rw [if_neg (by simp [hh]), hrec]

theorem dropWhile_len_le {p : Char → Bool} :
    ∀ (l : List Char), (l.dropWhile p).length ≤ l.length := by
  intro l
  induction l with
  | nil => exact Nat.le_refl 0
  | cons a t ih =>
    rw [List.dropWhile_cons]
    split
    · exact Nat.le_trans ih (Nat.le_succ _)
    · exact Nat.le_refl _

theorem lazy_snd_lt : ∀ {s : List Char}, s ≠ [] →
    (lazyContent s).2.length < s.length := by
  intro s
  induction s with
  | nil => intro h; exact absurd rfl h
  | cons c t ih =>
    intro _
    simp only [lazyContent]
    split
    · simp
    · next hcond =>
      have ht : t ≠ [] := by
        intro he
        subst he
        simp at hcond
      exact Nat.lt_trans (ih ht) (Nat.lt_succ_self _)

theorem matchPhaseLabel_label {w0 d0 s0 b0 : Char} {wrest drest srest brest : List Char}
    (hw0 : isJsWs w0 = true) (hwa : ∀ c ∈ wrest, isJsWs c = true)
    (hd0 : isAsciiDigit d0 = true) (hda : ∀ c ∈ drest, isAsciiDigit c = true)
    (hs0 : isColonWs s0 = true) (hsa : ∀ c ∈ srest, isColonWs c = true)
    (hb0 : isColonWs b0 = false) :
    matchPhaseLabel ('P' :: 'h' :: 'a' :: 's' :: 'e' :: w0 ::
        (wrest ++ d0 :: (drest ++ s0 :: (srest ++ b0 :: brest)))) =
      some ('P' :: 'h' :: 'a' :: 's' :: 'e' :: w0 ::
        (wrest ++ d0 :: (drest ++ s0 :: srest)), b0 :: brest) := by
  have hall1 : ∀ c ∈ (w0 :: wrest), isJsWs c = true := by
    intro c hc
    rcases List.mem_cons.mp hc with h | h
    · subst h; exact hw0
    · exact hwa c h
  have hall2 : ∀ c ∈ (d0 :: drest), isAsciiDigit c = true := by
    intro c hc
    rcases List.mem_cons.mp hc with h | h
    · subst h; exact hd0
    · exact hda c h
  have hall3 : ∀ c ∈ (s0 :: srest), isColonWs c = true := by
    intro c hc
    rcases List.mem_cons.mp hc with h | h
    · subst h; exact hs0
    · exact hsa c h
  have h1 : (w0 :: (wrest ++ d0 :: (drest ++ s0 :: (srest ++ b0 :: brest)))).takeWhile isJsWs
        = w0 :: wrest ∧
      (w0 :: (wrest ++ d0 :: (drest ++ s0 :: (srest ++ b0 :: brest)))).dropWhile isJsWs
        = d0 :: (drest ++ s0 :: (srest ++ b0 :: brest)) :=
    @runSplit isJsWs (w0 :: wrest) d0 (drest ++ s0 :: (srest ++ b0 :: brest))
      hall1 (digit_not_ws hd0)
  have h2 : (d0 :: (drest ++ s0 :: (srest ++ b0 :: brest))).takeWhile isAsciiDigit
        = d0 :: drest ∧
      (d0 :: (drest ++ s0 :: (srest ++ b0 :: brest))).dropWhile isAsciiDigit
        = s0 :: (srest ++ b0 :: brest) :=
    @runSplit isAsciiDigit (d0 :: drest) s0 (srest ++ b0 :: brest)
      hall2 (colonws_not_digit hs0)
  have h3 : (s0 :: (srest ++ b0 :: brest)).takeWhile isColonWs = s0 :: srest ∧
      (s0 :: (srest ++ b0 :: brest)).dropWhile isColonWs = b0 :: brest :=
    @runSplit isColonWs (s0 :: srest) b0 brest hall3 hb0
  show (let w := (w0 :: (wrest ++ d0 :: (drest ++ s0 :: (srest ++ b0 :: brest)))).takeWhile isJsWs
        let r1 := (w0 :: (wrest ++ d0 :: (drest ++ s0 :: (srest ++ b0 :: brest)))).dropWhile isJsWs
        if w.isEmpty then none
        else
          let d := r1.takeWhile isAsciiDigit
          let r2 := r1.dropWhile isAsciiDigit
          if d.isEmpty then none
          else
            let cs := r2.takeWhile isColonWs
            let r3 := r2.dropWhile isColonWs
            if cs.isEmpty then none
            else if r3.isEmpty then
              if 2 ≤ cs.length then
                some (['P', 'h', 'a', 's', 'e'] ++ w ++ d ++ cs.dropLast,
                      [cs.getLastD ' '])
              else none
            else some (['P', 'h', 'a', 's', 'e'] ++ w ++ d ++ cs, r3)) =
      some ('P' :: 'h' :: 'a' :: 's' :: 'e' :: w0 ::
        (wrest ++ d0 :: (drest ++ s0 :: srest)), b0 :: brest)
  simp only [h1.1, h1.2, h2.1, h2.2, h3.1, h3.2]
  rw [if_neg (by simp), if_neg (by simp), if_neg (by simp), if_neg (by simp)]
  simp [List.append_assoc, List.cons_append]

theorem tryMatchHere_plain_gen {v0 b0 : Char} {vrest brest tail : List Char}
    (hv0 : isJsWs v0 = true) (hva : ∀ c ∈ vrest, isJsWs c = true)
    (hb0 : isJsWs b0 = false)
    (hnl : matchPhaseLabel (b0 :: (brest ++ tail)) = none)
    (hstop : headingAt tail = true ∨ tail = [])
    (hins : ∀ n, n < (b0 :: brest).length → 0 < n →
      headingAt ((b0 :: brest).drop n ++ tail) = false) :
    tryMatchHere ('#' :: '#' :: v0 :: (vrest ++ b0 :: (brest ++ tail))) =
      some ('#' :: '#' :: v0 :: (vrest ++ b0 :: brest), b0 :: brest, tail) := by
  have hall : ∀ c ∈ (v0 :: vrest), isJsWs c = true := by
    intro c hc
    rcases List.mem_cons.mp hc with h | h
    · subst h; exact hv0
    · exact hva c h
  have h1 : (v0 :: (vrest ++ b0 :: (brest ++ tail))).takeWhile isJsWs = v0 :: vrest ∧
      (v0 :: (vrest ++ b0 :: (brest ++ tail))).dropWhile isJsWs = b0 :: (brest ++ tail) :=
    @runSplit isJsWs (v0 :: vrest) b0 (brest ++ tail) hall hb0
  have hlz : lazyContent (b0 :: (brest ++ tail)) = (b0 :: brest, tail) :=
    lazyContent_append tail (by simp) hstop hins
  show (let w := (v0 :: (vrest ++ b0 :: (brest ++ tail))).takeWhile isJsWs
        let r1 := (v0 :: (vrest ++ b0 :: (brest ++ tail))).dropWhile isJsWs
        if w.isEmpty then none
        else if r1.isEmpty then
          if 2 ≤ w.length then some ('#' :: '#' :: w, [w.getLastD ' '], [])
          else none
        else
          match matchPhaseLabel r1 with
          | some (pc, pr) =>
            some ('#' :: '#' :: (w ++ pc ++ (lazyContent pr).1),
                  (lazyContent pr).1, (lazyContent pr).2)
          | none =>
            some ('#' :: '#' :: (w ++ (lazyContent r1).1),
                  (lazyContent r1).1, (lazyContent r1).2)) =
      some ('#' :: '#' :: v0 :: (vrest ++ b0 :: brest), b0 :: brest, tail)
  simp only [h1.1, h1.2]
  rw [if_neg (by simp), if_neg (by simp)]
  simp only [hnl, hlz]
  simp [List.append_assoc, List.cons_append]

theorem tryMatchHere_label_gen {v0 w0 d0 s0 b0 : Char}
    {vrest wrest drest srest brest tail : List Char}
    (hv0 : isJsWs v0 = true) (hva : ∀ c ∈ vrest, isJsWs c = true)
    (hw0 : isJsWs w0 = true) (hwa : ∀ c ∈ wrest, isJsWs c = true)
    (hd0 : isAsciiDigit d0 = true) (hda : ∀ c ∈ drest, isAsciiDigit c = true)
    (hs0 : isColonWs s0 = true) (hsa : ∀ c ∈ srest, isColonWs c = true)
    (hb0 : isColonWs b0 = false)
    (hstop : headingAt tail = true ∨ tail = [])
    (hins : ∀ n, n < (b0 :: brest).length → 0 < n →
      headingAt ((b0 :: brest).drop n ++ tail) = false) :
    tryMatchHere ('#' :: '#' :: v0 :: (vrest ++ 'P' :: 'h' :: 'a' :: 's' :: 'e' :: w0 ::
        (wrest ++ d0 :: (drest ++ s0 :: (srest ++ b0 :: (brest ++ tail)))))) =
      some ('#' :: '#' :: v0 :: (vrest ++ 'P' :: 'h' :: 'a' :: 's' :: 'e' :: w0 ::
        (wrest ++ d0 :: (drest ++ s0 :: (srest ++ b0 :: brest)))),
        b0 :: brest, tail) := by
  have hall : ∀ c ∈ (v0 :: vrest), isJsWs c = true := by
    intro c hc
    rcases List.mem_cons.mp hc with h | h
    · subst h; exact hv0
    · exact hva c h
  have hb0w : isJsWs b0 = false := by
    have h2 := hb0
    unfold isColonWs at h2
    exact (Bool.or_eq_false_iff.mp h2).2
  have h1 : (v0 :: (vrest ++ 'P' :: 'h' :: 'a' :: 's' :: 'e' :: w0 ::
          (wrest ++ d0 :: (drest ++ s0 :: (srest ++ b0 :: (brest ++ tail)))))).takeWhile isJsWs
        = v0 :: vrest ∧
      (v0 :: (vrest ++ 'P' :: 'h' :: 'a' :: 's' :: 'e' :: w0 ::
          (wrest ++ d0 :: (drest ++ s0 :: (srest ++ b0 :: (brest ++ tail)))))).dropWhile isJsWs
        = 'P' :: 'h' :: 'a' :: 's' :: 'e' :: w0 ::
          (wrest ++ d0 :: (drest ++ s0 :: (srest ++ b0 :: (brest ++ tail)))) :=
    @runSplit isJsWs (v0 :: vrest) 'P'
      ('h' :: 'a' :: 's' :: 'e' :: w0 ::
        (wrest ++ d0 :: (drest ++ s0 :: (srest ++ b0 :: (brest ++ tail)))))
      hall (by decide)
  have hml := @matchPhaseLabel_label w0 d0 s0 b0 wrest drest srest (brest ++ tail)
    hw0 hwa hd0 hda hs0 hsa hb0
  have hlz : lazyContent (b0 :: (brest ++ tail)) = (b0 :: brest, tail) :=
    lazyContent_append tail (by simp) hstop hins
  show (let w := (v0 :: (vrest ++ 'P' :: 'h' :: 'a' :: 's' :: 'e' :: w0 ::
          (wrest ++ d0 :: (drest ++ s0 :: (srest ++ b0 :: (brest ++ tail)))))).takeWhile isJsWs
        let r1 := (v0 :: (vrest ++ 'P' :: 'h' :: 'a' :: 's' :: 'e' :: w0 ::
          (wrest ++ d0 :: (drest ++ s0 :: (srest ++ b0 :: (brest ++ tail)))))).dropWhile isJsWs
        if w.isEmpty then none
        else if r1.isEmpty then
          if 2 ≤ w.length then some ('#' :: '#' :: w, [w.getLastD ' '], [])
          else none
        else
          match matchPhaseLabel r1 with
          | some (pc, pr) =>
            some ('#' :: '#' :: (w ++ pc ++ (lazyContent pr).1),
                  (lazyContent pr).1, (lazyContent pr).2)
          | none =>
            some ('#' :: '#' :: (w ++ (lazyContent r1).1),
                  (lazyContent r1).1, (lazyContent r1).2)) =
      some ('#' :: '#' :: v0 :: (vrest ++ 'P' :: 'h' :: 'a' :: 's' :: 'e' :: w0 ::
        (wrest ++ d0 :: (drest ++ s0 :: (srest ++ b0 :: brest)))),
        b0 :: brest, tail)
  simp only [h1.1, h1.2]
  rw [if_neg (by simp), if_neg (by simp)]
  simp only [hml, hlz]
  simp [List.append_assoc, List.cons_append]

theorem matchPhaseLabel_pr_facts : ∀ {x pc pr : List Char},
    matchPhaseLabel x = some (pc, pr) → pr ≠ [] ∧ pr.length ≤ x.length := by
  intro x pc pr h
  rw [matchPhaseLabel.eq_def] at h
  split at h
  · next r =>
    simp only [] at h
    split at h
    · exact absurd h (by simp)
    · split at h
      · exact absurd h (by simp)
      · split at h
        · exact absurd h (by simp)
        · split at h
          · split at h
            · simp only [Option.some.injEq, Prod.mk.injEq] at h
              obtain ⟨h1, h2⟩ := h
              subst h2
              refine ⟨by simp, ?_⟩
              simp only [List.length_cons, List.length_nil]
              omega
            · exact absurd h (by simp)
          · next hcond =>
            simp only [Option.some.injEq, Prod.mk.injEq] at h
            obtain ⟨h1, h2⟩ := h
            subst h2
            refine ⟨fun he => hcond (by rw [he]; rfl), ?_⟩
            exact le_trans (dropWhile_len_le _)
              (le_trans (dropWhile_len_le _)
                (le_trans (dropWhile_len_le _)
                  (by simp only [List.length_cons]; omega)))
  · exact absurd h (by simp)

theorem tryMatchHere_rest_lt : ∀ {s m g rest : List Char},
    tryMatchHere s = some (m, g, rest) → rest.length < s.length := by
  intro s m g rest h
  rw [tryMatchHere.eq_def] at h
  split at h
  · next r =>
    simp only [] at h
    split at h
    · exact absurd h (by simp)
    · next hne1 =>
      split at h
      · split at h
        · simp only [Option.some.injEq, Prod.mk.injEq] at h
          obtain ⟨h1, h2, h3⟩ := h
          subst h3
          simp
        · exact absurd h (by simp)
      · next hne2 =>
        split at h
        · next pc pr heq =>
          simp only [Option.some.injEq, Prod.mk.injEq] at h
          obtain ⟨h1, h2, h3⟩ := h
          subst h3
          have hf := matchPhaseLabel_pr_facts heq
          have hlz := lazy_snd_lt hf.1
          have hd := @dropWhile_len_le isJsWs r
          have hlen : ('#' :: '#' :: r).length = r.length + 2 := by
            simp [List.length_cons]
          have hf2 := hf.2
          omega
        · next heq =>
          simp only [Option.some.injEq, Prod.mk.injEq] at h
          obtain ⟨h1, h2, h3⟩ := h
          subst h3
          have hr1 : List.dropWhile isJsWs r ≠ [] := by
            intro he
            rw [he] at hne2
            exact hne2 rfl
          have hlz := lazy_snd_lt hr1
          have hd := @dropWhile_len_le isJsWs r
          have hlen : ('#' :: '#' :: r).length = r.length + 2 := by
            simp [List.length_cons]
          omega
  · exact absurd h (by simp)

theorem scanAux_fuel : ∀ (f1 f2 : Nat) (s : List Char), s.length ≤ f1 →
    s.length ≤ f2 → scanAux f1 s = scanAux f2 s := by
  intro f1
  induction f1 with
  | zero =>
    intro f2 s h1 _
    have hs : s = [] := List.eq_nil_of_length_eq_zero (Nat.le_zero.mp h1)
    subst hs
    cases f2 <;> rfl
  | succ n ih =>
    intro f2 s h1 h2
    cases s with
    | nil => cases f2 <;> rfl
    | cons c t =>
      cases f2 with
      | zero => simp at h2
      | succ m =>
        simp only [scanAux]
        cases htm : tryMatchHere (c :: t) with
        | none =>
          simp only [htm]
          exact ih m t (by simp at h1; omega) (by simp at h2; omega)
        | some trip =>
          obtain ⟨mm, gg, rr⟩ := trip
          simp only [htm]
          have hlt := tryMatchHere_rest_lt htm
          simp only [List.length_cons] at hlt h1 h2
          rw [ih m rr (by omega) (by omega)]

theorem scanPhases_cons {md m g rest : List Char}
    (h : tryMatchHere md = some (m, g, rest)) :
    scanPhases md = (m, g) :: scanPhases rest := by
  have hlt := tryMatchHere_rest_lt h
  cases md with
  | nil => simp [tryMatchHere] at h
  | cons c t =>
    unfold scanPhases
    rw [List.length_cons, scanAux, h]
    show (m, g) :: scanAux t.length rest = (m, g) :: scanAux rest.length rest
    rw [scanAux_fuel t.length rest.length rest
      (by simp only [List.length_cons] at hlt; omega) (Nat.le_refl _)]

theorem buildPhases_names : ∀ (i : Nat) (ms : List (List Char × List Char)),
    (buildPhases i ms).map (fun ph => ph.name) =
      ms.map (fun mg => jsTrim mg.2) := by
  intro i ms
  induction ms generalizing i with
  | nil => rfl
  | cons a rest ih =>
    obtain ⟨m, g⟩ := a
    simp [buildPhases, ih]

theorem extractPhases_names {md m g : List Char} {ms : List (List Char × List Char)}
    (h : scanPhases md = (m, g) :: ms) :
    (extractPhases md).map (fun ph => ph.name) =
      jsTrim g :: ms.map (fun mg => jsTrim mg.2) := by
  have hb := buildPhases_names 1 ms
  simp only [extractPhases, h]
  simp [buildPhases, hb]

/-- C7 (counterexample): for the document `## Setup` followed by a body
line, the extracted phase name is the whole trimmed section text
`Setup` plus newline plus body, not the heading text `Setup` alone: the
regex runs with the dotall flag, so the lazy group spans the body. -/
theorem c7_counterexample :
    (extractPhases "## Setup\nInstall deps".data).map (fun ph => ph.name) =
      ["Setup\nInstall deps".data] ∧
    "Setup\nInstall deps".data ≠ "Setup".data :=
  ⟨rfl, by decide⟩

/-- C7 (amended): the phase name spans the whole matched section, not
just the heading line.  For a section made of `##`, a whitespace run,
and content that starts with a non-whitespace character, does not begin
with a `Phase` number label, has no `##` lookahead position inside it,
and ends at the next `##` heading or at the end of the document, the
extracted phase is named by the trimmed content — heading remainder
together with the section body — and the remaining phases are those of
the rest of the document.  For a labelled section whose heading starts
`##`, whitespace, `Phase`, a whitespace run, a digit run (any phase
number) and a run of colon or whitespace characters (covering both the
`Phase N: name` and the `Phase N name` forms), the label is stripped
and the phase is named by the trimmed content after it, again spanning
the section body up to the next heading or the end of the document. -/
theorem c7_amended_name_spans_section
    (v0 b0 : Char) (vrest brest tail : List Char)
    (u0 w0 d0 s0 e0 : Char) (urest wrest drest srest erest tail2 : List Char)
    (hv0 : isJsWs v0 = true) (hva : ∀ c ∈ vrest, isJsWs c = true)
    (hb0 : isJsWs b0 = false)
    (hnl : matchPhaseLabel (b0 :: (brest ++ tail)) = none)
    (hstop : headingAt tail = true ∨ tail = [])
    (hins : ∀ n, n < (b0 :: brest).length → 0 < n →
      headingAt ((b0 :: brest).drop n ++ tail) = false)
    (hu0 : isJsWs u0 = true) (hua : ∀ c ∈ urest, isJsWs c = true)
    (hw0 : isJsWs w0 = true) (hwa : ∀ c ∈ wrest, isJsWs c = true)
    (hd0 : isAsciiDigit d0 = true) (hda : ∀ c ∈ drest, isAsciiDigit c = true)
    (hs0 : isColonWs s0 = true) (hsa : ∀ c ∈ srest, isColonWs c = true)
    (he0 : isColonWs e0 = false)
    (hstop2 : headingAt tail2 = true ∨ tail2 = [])
    (hins2 : ∀ n, n < (e0 :: erest).length → 0 < n →
      headingAt ((e0 :: erest).drop n ++ tail2) = false) :
    (extractPhases ('#' :: '#' :: v0 :: (vrest ++ b0 :: (brest ++ tail)))).map
        (fun ph => ph.name) =
      jsTrim (b0 :: brest) :: (scanPhases tail).map (fun mg => jsTrim mg.2) ∧
    (extractPhases ('#' :: '#' :: u0 :: (urest ++ 'P' :: 'h' :: 'a' :: 's' :: 'e' :: w0 ::
        (wrest ++ d0 :: (drest ++ s0 :: (srest ++ e0 :: (erest ++ tail2))))))).map
        (fun ph => ph.name) =
      jsTrim (e0 :: erest) :: (scanPhases tail2).map (fun mg => jsTrim mg.2) := by
  constructor
  · exact extractPhases_names
      (scanPhases_cons (tryMatchHere_plain_gen hv0 hva hb0 hnl hstop hins))
  · exact extractPhases_names
      (scanPhases_cons (tryMatchHere_label_gen hu0 hua hw0 hwa hd0 hda hs0 hsa he0
        hstop2 hins2))

theorem c7_witness :
    isJsWs ' ' = true ∧ isJsWs 'O' = false ∧ isColonWs 'S' = false ∧
    isAsciiDigit '1' = true ∧ (∀ c ∈ "2".data, isAsciiDigit c = true) ∧
    isColonWs ' ' = true ∧
    matchPhaseLabel ('O' :: ("verview\nIntro".data ++ "## Phase 2: Next".data)) = none ∧
    (headingAt "## Phase 2: Next".data = true ∨ "## Phase 2: Next".data = []) ∧
    (∀ n, n < ('O' :: "verview\nIntro".data).length → 0 < n →
      headingAt (('O' :: "verview\nIntro".data).drop n ++ "## Phase 2: Next".data) = false) ∧
    (headingAt "## Final".data = true ∨ "## Final".data = []) ∧
    (∀ n, n < ('S' :: "etup\nInstall deps\n".data).length → 0 < n →
      headingAt (('S' :: "etup\nInstall deps\n".data).drop n ++ "## Final".data) = false) ∧
    ((extractPhases ('#' :: '#' :: ' ' ::
        ([] ++ 'O' :: ("verview\nIntro".data ++ "## Phase 2: Next".data)))).map
          (fun ph => ph.name) =
        jsTrim ('O' :: "verview\nIntro".data) ::
          (scanPhases "## Phase 2: Next".data).map (fun mg => jsTrim mg.2) ∧
      (extractPhases ('#' :: '#' :: ' ' :: ([] ++ 'P' :: 'h' :: 'a' :: 's' :: 'e' :: ' ' ::
        ([] ++ '1' :: ("2".data ++ ' ' :: ([] ++ 'S' ::
          ("etup\nInstall deps\n".data ++ "## Final".data))))))).map
          (fun ph => ph.name) =
        jsTrim ('S' :: "etup\nInstall deps\n".data) ::
          (scanPhases "## Final".data).map (fun mg => jsTrim mg.2)) :=
  ⟨by decide, by decide, by decide, by decide, by decide, by decide, by decide,
   by decide, by decide, by decide, by decide,
   c7_amended_name_spans_section ' ' 'O' [] "verview\nIntro".data "## Phase 2: Next".data
     ' ' ' ' '1' ' ' 'S' [] [] "2".data [] "etup\nInstall deps\n".data "## Final".data
     (by decide) (by simp) (by decide) (by decide) (by decide) (by decide)
     (by decide) (by simp) (by decide) (by simp) (by decide) (by decide)
     (by decide) (by simp) (by decide) (by decide) (by decide)⟩

end PlanFirst
